import Mathlib

/-!
Verification development for the voter-search repository.

Strings of the JavaScript source are modelled as lists of Unicode code points
(every character handled by this program lies in the Basic Multilingual Plane,
so JavaScript UTF-16 code units coincide with code points).  Numbers appearing
in ranking keys are modelled as rationals; the position weights 0.05 / 0.10 of
the multi-word PF and AO branches are modelled by the exact rationals 5/100 and
1/10 (the IEEE doubles of the source differ from these only in bits that no
claim below depends on: no settled claim evaluates those branches numerically).

Loops of the source that walk a string are given an explicit fuel argument
equal to the length of the walked list; each iteration of the original loop
consumes at least one character, so this fuel is never exhausted (the zero-fuel
branch is unreachable and returns the empty answer).
-/

set_option linter.unusedVariables false
set_option maxRecDepth 100000

namespace VoterSearch

/-! ### JavaScript string and collection primitives -/

/-- Characters matched by the JavaScript regular expression class backslash-s
(whitespace), used by trim, split and the whitespace-collapsing replaces. -/
def isJsSpace (c : Char) : Bool :=
  c ∈ ([' ', '\t', '\n', '\r', '\x0b', '\x0c', '\u00a0', '\u1680',
        '\u2000', '\u2001', '\u2002', '\u2003', '\u2004', '\u2005', '\u2006',
        '\u2007', '\u2008', '\u2009', '\u200a', '\u2028', '\u2029', '\u202f',
        '\u205f', '\u3000', '\ufeff'] : List Char)

/-- JavaScript String.prototype.trim: drop whitespace from both ends. -/
def jsTrim (s : List Char) : List Char :=
  ((s.dropWhile isJsSpace).reverse.dropWhile isJsSpace).reverse

/-- One pass of the replace of a whitespace run by a single space
(the regex replace of backslash-s-plus by one space).  The boolean records
whether the previous character belonged to a run already replaced. -/
def collapseGo : Bool → List Char → List Char
  | _, [] => []
  | prevSpace, c :: rest =>
    if isJsSpace c then
      if prevSpace then collapseGo true rest else ' ' :: collapseGo true rest
    else c :: collapseGo false rest

/-- JavaScript s.replace(whitespace-run, single space). -/
def collapseSpaces (s : List Char) : List Char := collapseGo false s

/-- JavaScript s.replace(whitespace-run, empty): delete every whitespace char. -/
def removeSpaces (s : List Char) : List Char := s.filter (fun c => ¬ isJsSpace c)

/-- JavaScript Set.prototype.add on an insertion-ordered list model of a Set. -/
def jsSetAdd {α : Type} [DecidableEq α] (l : List α) (x : α) : List α :=
  if x ∈ l then l else l ++ [x]

/-- Array.from of a JavaScript Set built by adding the elements of l in order:
keeps the first occurrence of every element. -/
def jsDedup {α : Type} [DecidableEq α] (l : List α) : List α :=
  l.foldl jsSetAdd []

/-- JavaScript Map.prototype.set on an insertion-ordered association list:
overwrite the existing entry for the key, or append a new one. -/
def jsMapSet {α β : Type} [DecidableEq α] (m : List (α × β)) (k : α) (v : β) :
    List (α × β) :=
  if m.any (fun e => e.1 = k) then
    m.map (fun e => if e.1 = k then (k, v) else e)
  else m ++ [(k, v)]

/-! ### worker.js: character classes and substitution groups -/

/-- Helper turning a list of string literals into entity lists of code points. -/
def strs (l : List String) : List (List Char) := l.map String.toList

/-- worker.js INDEP_VOWELS. -/
def INDEP_VOWELS : List Char :=
  String.toList "अआइईउऊएऐओऔऋॠऌॡ"

/-- worker.js MATRAS. -/
def MATRAS : List Char :=
  String.toList "ािीुूेैोौृॄॢॣ"

/-- worker.js MARKS_AS_MATRA (candrabindu, anusvara, visarga, nukta, virama). -/
def MARKS_AS_MATRA : List Char :=
  String.toList "ँंःं़्"

/-- worker.js VISUAL_P0 group list. -/
def VISUAL_P0 : List (List (List Char)) :=
  [strs ["ए","प"],
   strs ["क","फ"],
   strs ["ख","रव","थ","य","रा","स","श"],
   strs ["ग","रा","म"],
   strs ["घ","ध","छ"],
   strs ["ङ","ड","ह"],
   strs ["च","ज","ज्ञ","ञ"],
   strs ["झ","डा"],
   strs ["ट","ढ","द","ठ"],
   strs ["त","न"],
   strs ["प","ष","य","भ","म","न","प्न"],
   strs ["ब","व","ञ"],
   strs ["र","१"],
   strs ["श","रा","१।"],
   strs ["त्र","ञ"],
   strs ["त्त","त"],
   strs ["स्न","स"]]

/-- worker.js VISUAL_P1 group list. -/
def VISUAL_P1 : List (List (List Char)) :=
  [strs ["ण","ग"],
   strs ["ह","हा","घ","छ"],
   strs ["ड","ह","इ","झ"],
   strs ["प","ए"],
   strs ["स","रा","श"],
   strs ["र","ल"]]

/-- worker.js VISUAL_P2 group list. -/
def VISUAL_P2 : List (List (List Char)) :=
  [strs ["प","फ","च"]]

/-- worker.js PHONETIC group list. -/
def PHONETIC : List (List (List Char)) :=
  [strs ["अ","आ"],
   strs ["इ","ई"],
   strs ["उ","ऊ"],
   strs ["ए","ऐ"],
   strs ["ओ","औ"],
   strs ["ऋ","ॠ"],
   strs ["ऌ","ॡ"],
   strs ["क","ख"],
   strs ["ग","घ","ह"],
   strs ["च","छ"],
   strs ["ज","झ"],
   strs ["ट","ठ"],
   strs ["ड","ढ","द","ध","त","थ"],
   strs ["ण","न"],
   strs ["प","फ"],
   strs ["ब","भ","व"],
   strs ["य","ज"],
   strs ["स","श","ष"],
   strs ["त्र","ट्र"],
   strs ["ज्ञ","ज्या"],
   strs ["र","ड़"]]

/-- Substitution type codes, mirroring the TYPE object of worker.js. -/
def TYPE_EXACT : Nat := 0
def TYPE_PHONETIC : Nat := 1
def TYPE_VISUAL_P0 : Nat := 2
def TYPE_VISUAL_P1 : Nat := 3
def TYPE_VISUAL_P2 : Nat := 4
def TYPE_OTHER : Nat := 9

/-- Membership of the ordered pair (a, b) in the pair map built by
makePairMap from a group list: both entries lie in one group and differ
(the JavaScript map stores keys a-bar-b for all i different from j). -/
def pairInGroups (groups : List (List (List Char))) (a b : List Char) : Bool :=
  groups.any (fun g => a ∈ g ∧ b ∈ g ∧ a ≠ b)

/-- worker.js substType: exact, then phonetic, then the three visual tiers,
else OTHER. -/
def substType (a b : List Char) : Nat :=
  if a = b then TYPE_EXACT
  else if pairInGroups PHONETIC a b then TYPE_PHONETIC
  else if pairInGroups VISUAL_P0 a b then TYPE_VISUAL_P0
  else if pairInGroups VISUAL_P1 a b then TYPE_VISUAL_P1
  else if pairInGroups VISUAL_P2 a b then TYPE_VISUAL_P2
  else TYPE_OTHER

/-! ### worker.js: entity list and segmentation -/

/-- Stable insertion of x into a list sorted by descending length: x goes
after every earlier element of at least its length.  Folding this over a list
reproduces the stable JavaScript sort with comparator b.length - a.length. -/
def insertDesc (x : List Char) : List (List Char) → List (List Char)
  | [] => [x]
  | y :: ys => if x.length ≤ y.length then y :: insertDesc x ys else x :: y :: ys

/-- worker.js buildEntityList: the set union of all group members (in group
order V0, V1, V2, PHONETIC), plus the two numeral entities, with empty strings
filtered out, sorted by descending length (stably). -/
def buildEntityList : List (List Char) :=
  let all := (VISUAL_P0 ++ VISUAL_P1 ++ VISUAL_P2 ++ PHONETIC).foldl
    (fun acc g => g.foldl jsSetAdd acc) []
  let all := jsSetAdd (jsSetAdd all (String.toList "१")) (String.toList "१।")
  (all.filter (fun e => e ≠ [])).foldl (fun acc e => insertDesc e acc) []

/-- worker.js ENTITY_LIST, computed once. -/
def ENTITY_LIST : List (List Char) := buildEntityList

/-- Fuelled form of the worker.js segmentEntities loop.  Each iteration
consumes at least one character, so fuel equal to the length of the word is
always sufficient; the zero-fuel case is unreachable. -/
def segGo : Nat → List Char → List (List Char)
  | 0, _ => []
  | _ + 1, [] => []
  | fuel + 1, c :: rest =>
    match ENTITY_LIST.find? (fun e => e.isPrefixOf (c :: rest)) with
    | some e => e :: segGo fuel ((c :: rest).drop e.length)
    | none => [c] :: segGo fuel rest

/-- worker.js segmentEntities: greedy longest-match segmentation over the
entity vocabulary; an unmatched code point becomes a singleton entity. -/
def segmentEntities (w : List Char) : List (List Char) := segGo w.length w

/-- worker.js isMatraLikeUnit: a single code point that is a matra. -/
def isMatraLikeUnit (u : List Char) : Bool :=
  match u with
  | [c] => c ∈ MATRAS
  | _ => false

/-! ### worker.js: normalization and tokenization -/

/-- The punctuation class replaced by a space in worker.js normStrict. -/
def PUNCT_WORKER : List Char :=
  String.toList ".,;:|/\\()[]\x7b\x7d<>\"'\x60~!@#$%^&*_+=?-"

/-- worker.js normStrict: NBSP to space, trim, punctuation to space, collapse
whitespace runs, trim. -/
def normStrict (s : List Char) : List Char :=
  let s1 := s.map (fun c => if c = '\u00a0' then ' ' else c)
  let s2 := jsTrim s1
  let s3 := s2.map (fun c => if c ∈ PUNCT_WORKER then ' ' else c)
  jsTrim (collapseSpaces s3)

/-- worker.js tokenizeStrict: normalize then split on single spaces (after
collapsing, every separator is one space) and drop empty pieces. -/
def tokenizeStrict (s : List Char) : List (List Char) :=
  let x := normStrict s
  if x = [] then [] else (x.splitOn ' ').filter (fun t => t ≠ [])

/-- worker.js stripMarks: normalize, delete the five combining marks, collapse
whitespace, trim. -/
def stripMarks (s : List Char) : List Char :=
  let x := normStrict s
  if x = [] then []
  else jsTrim (collapseSpaces (x.filter (fun c => ¬ c ∈ MARKS_AS_MATRA)))

/-- worker.js countMarks: number of combining marks in the normalized string. -/
def countMarks (s : List Char) : Nat :=
  ((normStrict s).filter (fun c => c ∈ MARKS_AS_MATRA)).length

/-- JavaScript Math.abs of a difference of two counts. -/
def absDiff (a b : Nat) : Nat := Int.natAbs ((a : Int) - (b : Int))

/-! ### worker.js: word-level comparisons -/

/-- Caps of worker.js (FULL compare and prefix fallback policies). -/
def MAX_CONS_MISMATCH_PER_WORD : Nat := 4
def MAX_TOTAL_CONS_2WORD : Nat := 5
def MAX_TOTAL_CONS_3PLUS : Nat := 7
def PF_MAX_EXTRA_SUFFIX : Nat := 2
def PF_GLOBAL_EXTRA_PER_WORD : Nat := 2
def PF_K2_MAX_SUBS : Nat := 1
def PF_K3_MAX_SUBS : Nat := 2
def AO_FIRST_WORD_MAX_ADD_IN_MULTI : Nat := 2

/-- Mismatch counters accumulated by the comparison loops. -/
structure CmpAcc where
  con : Nat
  matra : Nat
  phon : Nat
  v0 : Nat
  v1 : Nat
  v2 : Nat
deriving DecidableEq, Repr

/-- The typeBucket cascade shared verbatim by the three comparison functions
of worker.js (count is the number of counted substitutions). -/
def computeTypeBucket (count phon v0 v1 v2 : Nat) : Nat :=
  let totalVisual := v0 + v1 + v2
  if count = 0 then 0
  else if phon > 0 ∧ totalVisual = 0 then 0
  else if phon = 0 ∧ totalVisual > 0 then
    if v0 > 0 ∧ v1 + v2 = 0 then 1
    else if v1 > 0 ∧ v0 + v2 = 0 then 2
    else if v2 > 0 ∧ v0 + v1 = 0 then 3
    else 4
  else 4

/-- The aligned-pair loop of worker.js compareWordFull. -/
def fullGo (allow : Bool) (acc : CmpAcc) :
    List (List Char × List Char) → Option CmpAcc
  | [] => some acc
  | (a, b) :: rest =>
    if a = b then fullGo allow acc rest
    else if isMatraLikeUnit a ∨ isMatraLikeUnit b then
      fullGo allow { acc with matra := acc.matra + 1 } rest
    else if allow = false then none
    else
      let t := substType a b
      if t = TYPE_PHONETIC then
        fullGo allow { acc with con := acc.con + 1, phon := acc.phon + 1 } rest
      else if t = TYPE_VISUAL_P0 then
        fullGo allow { acc with con := acc.con + 1, v0 := acc.v0 + 1 } rest
      else if t = TYPE_VISUAL_P1 then
        fullGo allow { acc with con := acc.con + 1, v1 := acc.v1 + 1 } rest
      else if t = TYPE_VISUAL_P2 then
        fullGo allow { acc with con := acc.con + 1, v2 := acc.v2 + 1 } rest
      else none

/-- Result of worker.js compareWordFull in the ok case (the detail counters
are flattened into the record). -/
structure FullRes where
  consonantMismatches : Nat
  matraMismatches : Nat
  typeBucket : Nat
  phoneticCount : Nat
  visualP0Count : Nat
  visualP1Count : Nat
  visualP2Count : Nat
deriving DecidableEq, Repr

/-- worker.js compareWordFull: aligned entity comparison with no insertions
or deletions; the ok-false returns of the source become none. -/
def compareWordFull (qWord cWord : List Char) (allowConsonantSubs : Bool) :
    Option FullRes :=
  let qRaw := normStrict qWord
  let cRaw := normStrict cWord
  if qRaw = [] ∨ cRaw = [] then none else
  let marksDiff := absDiff (countMarks qRaw) (countMarks cRaw)
  let q := removeSpaces (stripMarks qRaw)
  let c := removeSpaces (stripMarks cRaw)
  if q = [] ∨ c = [] then none else
  let qEnt := segmentEntities q
  let cEnt := segmentEntities c
  if qEnt.length ≠ cEnt.length then none else
  match fullGo allowConsonantSubs ⟨0, marksDiff, 0, 0, 0, 0⟩ (qEnt.zip cEnt) with
  | none => none
  | some acc =>
    if acc.con > MAX_CONS_MISMATCH_PER_WORD then none
    else some ⟨acc.con, acc.matra,
      computeTypeBucket acc.con acc.phon acc.v0 acc.v1 acc.v2,
      acc.phon, acc.v0, acc.v1, acc.v2⟩

/-- Accumulator of the prefix-fallback loop (subs counted separately). -/
structure PfAcc where
  subs : Nat
  matra : Nat
  phon : Nat
  v0 : Nat
  v1 : Nat
  v2 : Nat
deriving DecidableEq, Repr

/-- The aligned-prefix loop of worker.js compareWordPrefixFallback: an OTHER
pair fails, a counted substitution beyond maxSubs fails. -/
def pfGo (maxSubs : Nat) (acc : PfAcc) :
    List (List Char × List Char) → Option PfAcc
  | [] => some acc
  | (a, b) :: rest =>
    if a = b then pfGo maxSubs acc rest
    else if isMatraLikeUnit a ∨ isMatraLikeUnit b then
      pfGo maxSubs { acc with matra := acc.matra + 1 } rest
    else
      let t := substType a b
      if t = TYPE_OTHER then none
      else if acc.subs + 1 > maxSubs then none
      else
        let acc := { acc with subs := acc.subs + 1 }
        if t = TYPE_PHONETIC then pfGo maxSubs { acc with phon := acc.phon + 1 } rest
        else if t = TYPE_VISUAL_P0 then pfGo maxSubs { acc with v0 := acc.v0 + 1 } rest
        else if t = TYPE_VISUAL_P1 then pfGo maxSubs { acc with v1 := acc.v1 + 1 } rest
        else if t = TYPE_VISUAL_P2 then pfGo maxSubs { acc with v2 := acc.v2 + 1 } rest
        else pfGo maxSubs acc rest

/-- Result of worker.js compareWordPrefixFallback in the ok case. -/
structure PfRes where
  K : Nat
  subs : Nat
  typeBucket : Nat
  matraMismatches : Nat
  extraSuffix : Nat
deriving DecidableEq, Repr

/-- worker.js compareWordPrefixFallback: only for 2- or 3-entity query words,
candidate at most 2 entities longer, aligned prefix compared with a cap on
substitutions. -/
def compareWordPrefixFallback (qWord cWord : List Char)
    (allowConsonantSubs : Bool) : Option PfRes :=
  if allowConsonantSubs = false then none else
  let qRaw := normStrict qWord
  let cRaw := normStrict cWord
  if qRaw = [] ∨ cRaw = [] then none else
  let marksDiff := absDiff (countMarks qRaw) (countMarks cRaw)
  let q := removeSpaces (stripMarks qRaw)
  let c := removeSpaces (stripMarks cRaw)
  if q = [] ∨ c = [] then none else
  let qEnt := segmentEntities q
  let cEnt := segmentEntities c
  let qLen := qEnt.length
  let cLen := cEnt.length
  if ¬ (qLen = 2 ∨ qLen = 3) then none else
  let maxSubs := if qLen = 2 then PF_K2_MAX_SUBS else PF_K3_MAX_SUBS
  if cLen < qLen then none else
  let extraSuffix := cLen - qLen
  if extraSuffix > PF_MAX_EXTRA_SUFFIX then none else
  match pfGo maxSubs ⟨0, marksDiff, 0, 0, 0, 0⟩ (qEnt.zip (cEnt.take qLen)) with
  | none => none
  | some acc =>
    some ⟨qLen, acc.subs,
      computeTypeBucket acc.subs acc.phon acc.v0 acc.v1 acc.v2,
      acc.matra, extraSuffix⟩

/-- worker.js outsideSubsCapByLen. -/
def outsideSubsCapByLen (qLen : Nat) : Nat :=
  if qLen = 0 then 0
  else if qLen = 3 then 1
  else if 4 ≤ qLen ∧ qLen ≤ 8 then 2
  else if 9 ≤ qLen then 3
  else 0

/-- Accumulator of the add/outside loop (outside substitutions counted). -/
structure AoAcc where
  outside : Nat
  con : Nat
  matra : Nat
  phon : Nat
  v0 : Nat
  v1 : Nat
  v2 : Nat
deriving DecidableEq, Repr

/-- The aligned-prefix loop of worker.js compareWordAddOutside: an OTHER pair
is an outside substitution with an incremental cap check, a set pair is a
standard substitution. -/
def aoGo (maxOutside : Nat) (acc : AoAcc) :
    List (List Char × List Char) → Option AoAcc
  | [] => some acc
  | (a, b) :: rest =>
    if a = b then aoGo maxOutside acc rest
    else if isMatraLikeUnit a ∨ isMatraLikeUnit b then
      aoGo maxOutside { acc with matra := acc.matra + 1 } rest
    else
      let t := substType a b
      if t = TYPE_OTHER then
        if acc.outside + 1 > maxOutside then none
        else aoGo maxOutside
          { acc with outside := acc.outside + 1, con := acc.con + 1 } rest
      else
        let acc := { acc with con := acc.con + 1 }
        if t = TYPE_PHONETIC then aoGo maxOutside { acc with phon := acc.phon + 1 } rest
        else if t = TYPE_VISUAL_P0 then aoGo maxOutside { acc with v0 := acc.v0 + 1 } rest
        else if t = TYPE_VISUAL_P1 then aoGo maxOutside { acc with v1 := acc.v1 + 1 } rest
        else if t = TYPE_VISUAL_P2 then aoGo maxOutside { acc with v2 := acc.v2 + 1 } rest
        else aoGo maxOutside acc rest

/-- Result of worker.js compareWordAddOutside in the ok case. -/
structure AoRes where
  qLen : Nat
  additions : Nat
  outsideSubs : Nat
  consonantMismatches : Nat
  matraMismatches : Nat
  typeBucket : Nat
deriving DecidableEq, Repr

/-- Shared tail of compareWordAddOutside after the addition-cap check. -/
def aoTail (qLen additions marksDiff : Nat)
    (qEnt cEnt : List (List Char)) : Option AoRes :=
  let maxOutside := outsideSubsCapByLen qLen
  match aoGo maxOutside ⟨0, 0, marksDiff, 0, 0, 0, 0⟩ (qEnt.zip (cEnt.take qLen)) with
  | none => none
  | some acc =>
    some ⟨qLen, additions, acc.outside, acc.con, acc.matra,
      computeTypeBucket acc.con acc.phon acc.v0 acc.v1 acc.v2⟩

/-- worker.js compareWordAddOutside: candidate at least as long as the query,
suffix additions bounded by addCap when given (null becomes none), outside
substitutions bounded by the length-dependent cap. -/
def compareWordAddOutside (qWord cWord : List Char)
    (allowConsonantSubs : Bool) (addCap : Option Nat) : Option AoRes :=
  if allowConsonantSubs = false then none else
  let qRaw := normStrict qWord
  let cRaw := normStrict cWord
  if qRaw = [] ∨ cRaw = [] then none else
  let marksDiff := absDiff (countMarks qRaw) (countMarks cRaw)
  let q := removeSpaces (stripMarks qRaw)
  let c := removeSpaces (stripMarks cRaw)
  if q = [] ∨ c = [] then none else
  let qEnt := segmentEntities q
  let cEnt := segmentEntities c
  let qLen := qEnt.length
  let cLen := cEnt.length
  if cLen < qLen then none else
  let additions := cLen - qLen
  if h : addCap.isSome then
    if additions > addCap.get h then none else
    aoTail qLen additions marksDiff qEnt cEnt
  else aoTail qLen additions marksDiff qEnt cEnt

/-! ### worker.js: one-word targets, exact scenarios, buckets, keys -/

/-- Kinds of one-word targets. -/
inductive Kind | token | join2 | fulljoin
deriving DecidableEq, Repr

/-- worker.js kindRank. -/
def kindRank : Kind → Nat
  | Kind.token => 0
  | Kind.join2 => 1
  | Kind.fulljoin => 2

/-- A one-word scoring target of worker.js buildOneWordTargets. -/
structure Target where
  text : List Char
  kind : Kind
  pos : Nat
  span : Nat
deriving DecidableEq, Repr

/-- worker.js buildOneWordTargets: every token, every adjacent 2-token join,
and the full concatenation when there are at least two tokens. -/
def buildOneWordTargets (tokens : List (List Char)) : List Target :=
  (tokens.enum.map (fun p => ⟨p.2, Kind.token, p.1, 1⟩))
  ++ ((List.zipWith (fun a b => a ++ b) tokens tokens.tail).enum.map
      (fun p => ⟨p.2, Kind.join2, p.1, 2⟩))
  ++ (if tokens.length ≥ 2 then [⟨tokens.flatten, Kind.fulljoin, 0, tokens.length⟩] else [])

/-- Descriptor returned by worker.js exactScenarioKey in the ok case. -/
structure ExactDesc where
  scenarioId : Nat
  kindRank : Nat
  pos : Nat
  span : Nat
  suffixCount : Nat
  totalWords : Nat
deriving DecidableEq, Repr

/-- The explicit better-than comparison on (kindRank, pos, span) used inside
the scenario-0 loop of worker.js exactScenarioKey. -/
def exactBetter (d b : ExactDesc) : Prop :=
  d.kindRank < b.kindRank ∨ (d.kindRank = b.kindRank ∧ d.pos < b.pos) ∨
    (d.kindRank = b.kindRank ∧ d.pos = b.pos ∧ d.span < b.span)

instance (d b : ExactDesc) : Decidable (exactBetter d b) := by
  unfold exactBetter; infer_instance

/-- The scenario-0 loop of worker.js exactScenarioKey: keep the best matching
target by (kindRank, pos, span). -/
def exactScenario0Go (q : List Char) (totalWords : Nat)
    (best : Option ExactDesc) : List Target → Option ExactDesc
  | [] => best
  | t :: rest =>
    if t.text = q then
      let desc : ExactDesc := ⟨0, kindRank t.kind, t.pos, t.span, 0, totalWords⟩
      match best with
      | none => exactScenario0Go q totalWords (some desc) rest
      | some b =>
        exactScenario0Go q totalWords
          (some (if exactBetter desc b then desc else b)) rest
    else exactScenario0Go q totalWords best rest

/-- The scenario-0 loop started on an empty best. -/
def exactScenario0Fold (q : List Char) (totalWords : Nat)
    (targets : List Target) : Option ExactDesc :=
  exactScenario0Go q totalWords none targets

/-- worker.js exactScenarioKey. -/
def exactScenarioKey (qToks cToks : List (List Char)) : Option ExactDesc :=
  match qToks with
  | [q] =>
    let targets := buildOneWordTargets cToks
    match exactScenario0Fold q cToks.length targets with
    | some best => some best
    | none =>
      match cToks with
      | c0 :: _ =>
        if c0 = q then some ⟨1, 0, 0, 1, cToks.length - 1, cToks.length⟩ else none
      | [] => none
  | _ =>
    if qToks.length ≤ cToks.length then
      if qToks.isPrefixOf cToks then
        some ⟨10, 0, 0, qToks.length, cToks.length - qToks.length, cToks.length⟩
      else none
    else none

/-- The allZeroExcept predicate of worker.js typingBucketOrder: every position
other than idx is zero and position idx is positive. -/
def allZeroExcept (w : List Nat) (idx : Nat) : Prop :=
  ∀ p ∈ w.enum, if p.1 = idx then 0 < p.2 else p.2 = 0

instance (w : List Nat) (idx : Nat) : Decidable (allZeroExcept w idx) := by
  unfold allZeroExcept; infer_instance

/-- worker.js typingBucketOrder: the typing-bucket ladder; null becomes none. -/
def typingBucketOrder (nWords : Nat) (perWordConMism : List Nat)
    (totalConMism : Nat) : Option Nat :=
  if nWords = 1 then
    if totalConMism ≤ 4 then some 0 else none
  else if nWords = 2 then
    if totalConMism > MAX_TOTAL_CONS_2WORD then none else
    let w1 := perWordConMism.getD 0 0
    let w2 := perWordConMism.getD 1 0
    if w1 = 0 ∧ w2 > 0 ∧ w2 ≤ 2 then some 0
    else if w2 = 0 ∧ w1 > 0 ∧ w1 ≤ 2 then some 1
    else if w1 = 0 ∧ w2 > 0 ∧ w2 ≤ 4 then some 2
    else if w2 > 0 ∧ w2 ≤ 4 ∧ w1 > 0 ∧ w1 ≤ 2 then some 3
    else some 9
  else
    if totalConMism > MAX_TOTAL_CONS_3PLUS then none else
    let w := perWordConMism
    let last := nWords - 1
    let mid := 1
    let first := 0
    if allZeroExcept w last ∧ w.getD last 0 ≤ 2 then some 0
    else if nWords ≥ 3 ∧ allZeroExcept w mid ∧ w.getD mid 0 ≤ 2 then some 1
    else if allZeroExcept w first ∧ w.getD first 0 ≤ 2 then some 2
    else if allZeroExcept w last ∧ w.getD last 0 ≤ 4 then some 3
    else if nWords = 3 ∧ w.getD first 0 = 0 ∧ w.getD mid 0 > 0 ∧ w.getD mid 0 ≤ 2 ∧
        w.getD last 0 > 0 ∧ w.getD last 0 ≤ 4 then some 4
    else if nWords = 3 ∧ w.getD last 0 = 0 ∧ w.getD first 0 > 0 ∧ w.getD first 0 ≤ 2 ∧
        w.getD mid 0 > 0 ∧ w.getD mid 0 ≤ 2 then some 5
    else if nWords = 3 ∧ w.getD first 0 ≤ 2 ∧ w.getD mid 0 ≤ 2 ∧ w.getD last 0 ≤ 4 ∧
        w.getD first 0 + w.getD mid 0 + w.getD last 0 > 0 then some 6
    else some 9

/-- worker.js cmpKey element comparison (minus-one, zero, one as in the source). -/
def cmpVals (x y : ℚ) : Int := if x = y then 0 else if x < y then -1 else 1

/-- The tail walk of worker.js cmpKey once the first key is exhausted: the
remaining entries of the longer key are compared against zero. -/
def cmpZeros : List ℚ → Int
  | [] => 0
  | y :: ys => if cmpVals 0 y = 0 then cmpZeros ys else cmpVals 0 y

/-- worker.js cmpKey: lexicographic comparison of keys, missing entries read
as zero. -/
def cmpKey : List ℚ → List ℚ → Int
  | [], b => cmpZeros b
  | x :: xs, [] => if cmpVals x 0 = 0 then cmpKey xs [] else cmpVals x 0
  | x :: xs, y :: ys => if cmpVals x y = 0 then cmpKey xs ys else cmpVals x y

/-- worker.js parseSerial: the first run of decimal digits anywhere in the
string, else zero.  Serial numbers are assumed small enough that the
JavaScript double holds them exactly. -/
def parseSerial (s : List Char) : Nat :=
  let run := (s.dropWhile (fun c => ¬ c.isDigit)).takeWhile Char.isDigit
  run.foldl (fun a c => a * 10 + (c.toNat - 48)) 0

/-! ### worker.js: field evaluation and row evaluation -/

/-- Which name field a result was scored against. -/
inductive Field | voter | relative
deriving DecidableEq, Repr

/-- A field evaluation result: the ranking key and the field that produced it
(the explain string of the source carries no decision content and is not
modelled). -/
structure FieldResult where
  key : List ℚ
  matchField : Field
deriving DecidableEq, Repr

/-- The one-word TYPO_FULL loop of worker.js evaluateAgainstField: best key
over all targets, first seen wins ties. -/
def oneWordFullBest (q : List Char) (targets : List Target) (serialNo : Nat) :
    Option (List ℚ) :=
  targets.foldl (fun best t =>
    match compareWordFull q t.text true with
    | none => best
    | some r =>
      match typingBucketOrder 1 [r.consonantMismatches] r.consonantMismatches with
      | none => best
      | some bucket =>
        let key : List ℚ := [1, 0, (bucket : ℚ), (r.consonantMismatches : ℚ),
          (r.typeBucket : ℚ), (r.matraMismatches : ℚ), (kindRank t.kind : ℚ),
          (t.pos : ℚ), (serialNo : ℚ)]
        match best with
        | none => some key
        | some b => if cmpKey key b < 0 then some key else some b) none

/-- The one-word TYPO_AO fallback loop of worker.js evaluateAgainstField
(unlimited additions for a one-word query). -/
def oneWordAoBest (q : List Char) (targets : List Target) (serialNo : Nat) :
    Option (List ℚ) :=
  targets.foldl (fun best t =>
    match compareWordAddOutside q t.text true none with
    | none => best
    | some rao =>
      let key : List ℚ := [1, 2, (rao.outsideSubs : ℚ), (rao.additions : ℚ),
        (rao.typeBucket : ℚ), (rao.matraMismatches : ℚ), (kindRank t.kind : ℚ),
        (t.pos : ℚ), (serialNo : ℚ)]
      match best with
      | none => some key
      | some b => if cmpKey key b < 0 then some key else some b) none

/-- The multi-word branch of worker.js evaluateAgainstField: FULL word by
word, else PF, else AO; position weights are the exact rationals documented
in the file header. -/
def multiWordKey (qToks candToks : List (List Char)) (serialNo : Nat) :
    Option (List ℚ) :=
  let aligned := candToks.take qToks.length
  let suffixCount := candToks.length - qToks.length
  let totalWords := candToks.length
  match (qToks.zip aligned).mapM (fun p => compareWordFull p.1 p.2 true) with
  | some perWordFull =>
    let conList := perWordFull.map (fun w => w.consonantMismatches)
    let totalCon := conList.sum
    match typingBucketOrder qToks.length conList totalCon with
    | none => none
    | some bucket =>
      let severitySum : Nat := (perWordFull.map (fun w =>
        w.consonantMismatches * 1000000 + w.typeBucket * 10000 + w.matraMismatches)).sum
      some [1, 0, (bucket : ℚ), (severitySum : ℚ), (suffixCount : ℚ),
        (totalWords : ℚ), (serialNo : ℚ)]
  | none =>
    match (qToks.zip aligned).mapM (fun p => compareWordPrefixFallback p.1 p.2 true) with
    | some perWordPF =>
      let globalExtra := (perWordPF.map (fun w => w.extraSuffix)).sum
      if globalExtra > PF_GLOBAL_EXTRA_PER_WORD * qToks.length then none
      else
        let sums := perWordPF.enum.foldl (fun (s : ℚ × ℚ × ℚ × ℚ) p =>
          let i := p.1
          let w := p.2
          let posW : ℚ := 1 + ((3 - i : Nat) : ℚ) * (5 / 100)
          (s.1 + (w.subs : ℚ) * 1000 * posW,
           s.2.1 + (w.typeBucket : ℚ) * 10 * posW,
           s.2.2.1 + (w.matraMismatches : ℚ) * 1 * posW,
           s.2.2.2 + (w.extraSuffix : ℚ) * 100 * posW)) (0, 0, 0, 0)
        some [1, 1, sums.1, sums.2.1, sums.2.2.1, sums.2.2.2, (suffixCount : ℚ),
          (totalWords : ℚ), (serialNo : ℚ)]
    | none =>
      match (qToks.zip aligned).enum.mapM (fun p =>
          compareWordAddOutside p.2.1 p.2.2 true
            (if p.1 = 0 then some AO_FIRST_WORD_MAX_ADD_IN_MULTI else none)) with
      | none => none
      | some perWordAO =>
        let sums := perWordAO.enum.foldl (fun (s : ℚ × ℚ × ℚ × ℚ) p =>
          let i := p.1
          let w := p.2
          let posW : ℚ := 1 + ((3 - i : Nat) : ℚ) * (1 / 10)
          (s.1 + (w.outsideSubs : ℚ) * posW,
           s.2.1 + (w.additions : ℚ) * (if i = 0 then 2 else 1),
           s.2.2.1 + (w.typeBucket : ℚ) * posW,
           s.2.2.2 + (w.matraMismatches : ℚ) * posW)) (0, 0, 0, 0)
        some [1, 2, sums.1, sums.2.1, sums.2.2.1, sums.2.2.2, (suffixCount : ℚ),
          (totalWords : ℚ), (serialNo : ℚ)]

/-- The ranking key computed by worker.js evaluateAgainstField (EXACT first,
then the typing families unless exact-only). -/
def evalFieldKey (qToks candToks : List (List Char)) (serialNo : Nat)
    (exactOn : Bool) : Option (List ℚ) :=
  match exactScenarioKey qToks candToks with
  | some ex => some [0, (ex.scenarioId : ℚ), (ex.kindRank : ℚ), (ex.pos : ℚ),
      (ex.suffixCount : ℚ), (ex.totalWords : ℚ), (serialNo : ℚ)]
  | none =>
    if exactOn then none
    else if candToks.length < qToks.length then none
    else match qToks with
    | [q] =>
      let targets := buildOneWordTargets candToks
      match oneWordFullBest q targets serialNo with
      | some best => some best
      | none => oneWordAoBest q targets serialNo
    | _ => multiWordKey qToks candToks serialNo

/-- worker.js evaluateAgainstField: the key plus the scored field name. -/
def evaluateAgainstField (qToks candToks : List (List Char)) (serialNo : Nat)
    (fieldName : Field) (exactOn : Bool) : Option FieldResult :=
  (evalFieldKey qToks candToks serialNo exactOn).map (fun k => ⟨k, fieldName⟩)

/-- The candidate row fields consumed by worker.js evaluateRow. -/
structure Row where
  voter_name_raw : List Char
  relative_name_raw : List Char
  serial_no : List Char
deriving DecidableEq, Repr

/-- The per-field consider step of worker.js evaluateRow, updating the best
result: an empty token list is skipped, a strictly smaller key wins, an equal
key wins only for the voter field over a non-voter best. -/
def considerField (qTokens : List (List Char)) (exactOn : Bool) (serialNo : Nat)
    (best : Option FieldResult) (fieldName : Field)
    (candToks : List (List Char)) : Option FieldResult :=
  if candToks = [] then best
  else match evaluateAgainstField qTokens candToks serialNo fieldName exactOn with
  | none => best
  | some res =>
    match best with
    | none => some res
    | some b =>
      let c := cmpKey res.key b.key
      if c < 0 then some res
      else if c = 0 then
        if b.matchField ≠ Field.voter ∧ fieldName = Field.voter then some res
        else some b
      else some b

/-- The worker search scopes ("anywhere" is the catch-all else branch of the
source). -/
inductive Scope | voter | relative | anywhere
deriving DecidableEq, Repr

/-- worker.js evaluateRow: score the fields selected by the scope; for the
anywhere scope the voter field is considered first, then the relative field. -/
def evaluateRow (scope : Scope) (exactOn : Bool) (qTokens : List (List Char))
    (row : Row) : Option FieldResult :=
  let serialNo := parseSerial row.serial_no
  let voterTokens := tokenizeStrict row.voter_name_raw
  let relTokens := tokenizeStrict row.relative_name_raw
  match scope with
  | Scope.voter => considerField qTokens exactOn serialNo none Field.voter voterTokens
  | Scope.relative => considerField qTokens exactOn serialNo none Field.relative relTokens
  | Scope.anywhere =>
    considerField qTokens exactOn serialNo
      (considerField qTokens exactOn serialNo none Field.voter voterTokens)
      Field.relative relTokens

/-- app.js runSearch line 1512: the scope handed to the worker, with the
anywhere scope rewritten to the voter scope before ranking starts. -/
def scopeForWorker (searchScope : Scope) : Scope :=
  if searchScope = Scope.anywhere then Scope.voter else searchScope

/-- Modelled from the words of spec section 4.5.7 (field choice under the
anywhere scope): score both fields and return the lexicographically smaller
key, ties in favor of the voter field. -/
def claimedAnywhereResult (qTokens : List (List Char)) (exactOn : Bool)
    (row : Row) : Option FieldResult :=
  let serialNo := parseSerial row.serial_no
  let v := evaluateAgainstField qTokens (tokenizeStrict row.voter_name_raw)
    serialNo Field.voter exactOn
  let r := evaluateAgainstField qTokens (tokenizeStrict row.relative_name_raw)
    serialNo Field.relative exactOn
  match v, r with
  | some a, some b => some (if cmpKey b.key a.key < 0 then b else a)
  | some a, none => some a
  | none, some b => some b
  | none, none => none

/-! ### netlify/functions/candidates.js: normalization and key building -/

/-- The punctuation class of the norm helper in candidates.js (it lacks the
backtick that worker.js normStrict also replaces). -/
def PUNCT_CJS : List Char :=
  String.toList ".,;:|/\\()[]\x7b\x7d<>\"'~!@#$%^&*_+=?-"

/-- candidates.js norm. -/
def cjsNorm (s : List Char) : List Char :=
  let s1 := s.map (fun c => if c = '\u00a0' then ' ' else c)
  let s2 := jsTrim s1
  let s3 := s2.map (fun c => if c ∈ PUNCT_CJS then ' ' else c)
  jsTrim (collapseSpaces s3)

/-- candidates.js tokenize. -/
def cjsTokenize (s : List Char) : List (List Char) :=
  let x := cjsNorm s
  if x = [] then [] else (x.splitOn ' ').filter (fun t => t ≠ [])

/-- candidates.js prefixN: delete all whitespace, then the first n characters
(the whole token when shorter). -/
def prefixN (token : List Char) (n : Nat) : List Char :=
  (removeSpaces token).take n

/-- candidates.js INDEP_VOWEL_MAP. -/
def indepVowelMap (c : Char) : Option Char :=
  if c = 'अ' ∨ c = 'आ' then some 'A'
  else if c = 'इ' ∨ c = 'ई' then some 'I'
  else if c = 'उ' ∨ c = 'ऊ' then some 'U'
  else if c = 'ए' ∨ c = 'ऐ' then some 'E'
  else if c = 'ओ' ∨ c = 'औ' then some 'O'
  else if c = 'ऋ' ∨ c = 'ॠ' then some 'R'
  else if c = 'ऌ' ∨ c = 'ॡ' then some 'L'
  else none

/-- candidates.js MATRA_MAP. -/
def matraMap (c : Char) : Option Char :=
  if c = 'ा' then some 'A'
  else if c = 'ि' ∨ c = 'ी' then some 'I'
  else if c = 'ु' ∨ c = 'ू' then some 'U'
  else if c = 'े' ∨ c = 'ै' then some 'E'
  else if c = 'ो' ∨ c = 'ौ' then some 'O'
  else if c = 'ृ' ∨ c = 'ॄ' then some 'R'
  else if c = 'ॢ' ∨ c = 'ॣ' then some 'L'
  else none

/-- candidates.js REMOVE_MARKS. -/
def REMOVE_MARKS : List Char := String.toList "ँंः़्"

/-- candidates.js normExactIndex: marks removed, independent vowels and matras
folded to their bucket letters. -/
def normExactIndex (s : List Char) : List Char :=
  let x := cjsNorm s
  if x = [] then [] else
  let out := x.foldr (fun c acc =>
    if c ∈ REMOVE_MARKS then acc
    else match indepVowelMap c with
    | some v => v :: acc
    | none => match matraMap c with
      | some v => v :: acc
      | none => c :: acc) []
  jsTrim (collapseSpaces out)

/-- candidates.js tokenizeExactIndex. -/
def tokenizeExactIndex (s : List Char) : List (List Char) :=
  let x := normExactIndex s
  if x = [] then [] else (x.splitOn ' ').filter (fun t => t ≠ [])

/-- candidates.js CONFUSABLE_SETS (note these differ from the worker groups;
the later set containing the retroflex pair overwrites one mapping). -/
def CONFUSABLE_SETS : List (List Char) :=
  [String.toList "दढह", String.toList "बव", String.toList "सश",
   String.toList "तन", String.toList "डढ"]

/-- candidates.js CONF_MAP: each set member maps to the first member of its
set, built with JavaScript Map.set so later sets overwrite earlier entries. -/
def CONF_MAP : List (Char × Char) :=
  CONFUSABLE_SETS.foldl (fun m set =>
    match set with
    | [] => m
    | rep :: _ => set.foldl (fun m ch => jsMapSet m ch rep) m) []

/-- candidates.js global replace of the digraph र plus व by ख (left to right,
non-overlapping, as the regex replace scans). -/
def replRaVa : List Char → List Char
  | 'र' :: 'व' :: rest => 'ख' :: replRaVa rest
  | c :: rest => c :: replRaVa rest
  | [] => []

/-- candidates.js applyConfusableFoldLoose. -/
def applyConfusableFoldLoose (s : List Char) : List Char :=
  replRaVa (s.map (fun c => ((CONF_MAP.lookup c).getD c)))

/-- candidates.js normLoose. -/
def normLoose (s : List Char) : List Char :=
  let x := cjsNorm s
  if x = [] then [] else
  let out := x.foldr (fun c acc =>
    match indepVowelMap c with
    | some v => v :: acc
    | none => match matraMap c with
      | some v => v :: acc
      | none => if c ∈ REMOVE_MARKS then acc else c :: acc) []
  jsTrim (collapseSpaces (applyConfusableFoldLoose out))

/-- candidates.js tokenizeLoose. -/
def tokenizeLoose (s : List Char) : List (List Char) :=
  let x := normLoose s
  if x = [] then [] else (x.splitOn ' ').filter (fun t => t ≠ [])

/-- The adjacent-pair merge of candidates.js joinVariantsTokens: tokens i and
i + 1 merged into one, the rest kept (toks.slice(0,i) ++ [toks[i]+toks[i+1]]
++ toks.slice(i+2)); out-of-range reads give the empty string as getD. -/
def mergeSlice (i : Nat) (toks : List (List Char)) : List (List Char) :=
  toks.take i ++ [toks.getD i [] ++ toks.getD (i + 1) []] ++ toks.drop (i + 2)

/-- JavaScript Array.prototype.join with a single-space separator. -/
def joinSp (l : List (List Char)) : List Char := (l.intersperse [' ']).flatten

/-- candidates.js joinVariantsTokens: all adjacent-pair merges plus the full
concatenation, every variant collapsed to a spaceless string (inside the
final set for up to three tokens, on insertion for four or more). -/
def joinVariantsTokens (tokens : List (List Char)) : List (List Char) :=
  let toks := tokens.filter (fun t => t ≠ [])
  let n := toks.length
  if n ≤ 1 then [] else
  if n ≤ 3 then
    let out := (List.range (n - 1)).foldl
      (fun acc i => jsSetAdd acc (joinSp (mergeSlice i toks))) []
    let out := jsSetAdd out toks.flatten
    out.foldl (fun final s => jsSetAdd final (removeSpaces s)) []
  else
    let out := (List.range (n - 1)).foldl
      (fun acc i => jsSetAdd acc (removeSpaces (joinSp (mergeSlice i toks)))) []
    jsSetAdd out toks.flatten

/-- candidates.js buildKeysFromTokens: prefixes of the tokens and of the join
variants, empty keys dropped, deduplicated in insertion order. -/
def buildKeysFromTokens (tokens : List (List Char)) (prefixLen : Nat) :
    List (List Char) :=
  let keys := (tokens.map (fun t => prefixN t prefixLen)).filter (fun k => k ≠ [])
  let keys := keys ++ ((joinVariantsTokens tokens).map
    (fun j => prefixN j prefixLen)).filter (fun k => k ≠ [])
  jsDedup keys

/-- The index resolutions (candidates.js constants). -/
def PREFIX_LEN_STRICT : Nat := 3
def PREFIX_LEN_EXACT : Nat := 2
def PREFIX_LEN_LOOSE : Nat := 2

/-! ### app.js: the client fallback key builder -/

/-- app.js prefixN: trim, then the first n characters. -/
def appPrefixN (s : List Char) (n : Nat) : List Char := (jsTrim s).take n

/-- app.js joinVariantsTokens (commented as a safe fallback in the source):
only the bare adjacent-pair concatenations, without the remaining tokens and
without the full concatenation. -/
def appJoinVariantsTokens (tokens : List (List Char)) : List (List Char) :=
  if tokens.length < 2 then []
  else List.zipWith (fun a b => a ++ b) tokens tokens.tail

/-- app.js buildKeysFromTokens. -/
def appBuildKeysFromTokens (tokens : List (List Char)) (prefixLen : Nat) :
    List (List Char) :=
  let keys := (tokens.map (fun t => appPrefixN t prefixLen)).filter (fun k => k ≠ [])
  let keys := keys ++ ((appJoinVariantsTokens tokens).map
    (fun j => appPrefixN j prefixLen)).filter (fun k => k ≠ [])
  jsDedup keys

/-! ### candidates.js: candidate generation over an index snapshot

The Turso tables are modelled as finite lists of (key, row id) rows, already
restricted to the requested AC (the ac column equality of the SQL query);
table names and the SQL transport are elided.  -/

/-- One posting index table: rows of (key, row_id). -/
def IdxTable : Type := List (List Char × Nat)

/-- The per-row hit metadata of one index lookup. -/
structure HitMeta where
  hit_count : Nat
  and_hit : Bool
deriving DecidableEq, Repr

/-- candidates.js queryIndexCandidates: the SQL groups matching rows by
row_id, counts distinct matching keys, and flags and_hit when that count
equals the number of keys queried; an empty key list gives an empty map. -/
def queryIndexCandidates (table : IdxTable) (keys : List (List Char)) :
    List (Nat × HitMeta) :=
  if keys = [] then [] else
  let hits := table.filter (fun e => e.1 ∈ keys)
  let rids := jsDedup (hits.map (fun e => e.2))
  rids.map (fun rid =>
    let distinctKeys := jsDedup ((hits.filter (fun e => e.2 = rid)).map (fun e => e.1))
    (rid, ⟨distinctKeys.length, distinctKeys.length = keys.length⟩))

/-- Scope selection of the voter-side lookups: skipped only for the
relative scope (candidates.js and part_004 branch identically). -/
def sideVoter {α : Type} (scope : Scope) (x : List α) : List α :=
  match scope with
  | Scope.relative => []
  | _ => x

/-- Scope selection of the relative-side lookups: skipped only for the
voter scope. -/
def sideRel {α : Type} (scope : Scope) (x : List α) : List α :=
  match scope with
  | Scope.voter => []
  | _ => x

/-- The six posting indexes consulted by candidates.js. -/
structure CjsSnapshot where
  idx_voter : IdxTable
  idx_relative : IdxTable
  idx_exact_voter : IdxTable
  idx_exact_relative : IdxTable
  idx_loose_voter : IdxTable
  idx_loose_relative : IdxTable

/-- The lookup-and-union body of candidates.js getCandidatesForQuery over
already-built key families (the twelve-counter metadata record is keyed by
the same row ids, so the id list below is exactly Array.from of the
metaByRow keys in upsert order). -/
def cjsCandidateCore (snap : CjsSnapshot) (scope : Scope) (exactOn : Bool)
    (strictKeys exactKeys looseKeys : List (List Char)) : List Nat :=
  if strictKeys = [] ∧ exactKeys = [] ∧ looseKeys = [] then [] else
  let wantLoose : Bool := ! exactOn
  let sv := sideVoter scope (queryIndexCandidates snap.idx_voter strictKeys)
  let sr := sideRel scope (queryIndexCandidates snap.idx_relative strictKeys)
  let ev := sideVoter scope (queryIndexCandidates snap.idx_exact_voter exactKeys)
  let er := sideRel scope (queryIndexCandidates snap.idx_exact_relative exactKeys)
  let lv := if wantLoose then
      sideVoter scope (queryIndexCandidates snap.idx_loose_voter looseKeys)
    else []
  let lr := if wantLoose then
      sideRel scope (queryIndexCandidates snap.idx_loose_relative looseKeys)
    else []
  jsDedup ((sv ++ sr ++ ev ++ er ++ lv ++ lr).map (fun e => e.1))

/-- candidates.js getCandidatesForQuery, restricted to the candidate id list:
build the three key families from the query, then run the scope-selected
lookups (the loose family only when exactOn is false) and take the union of
the hit row ids in upsert order. -/
def getCandidatesForQuery (snap : CjsSnapshot) (q : List Char) (scope : Scope)
    (exactOn : Bool) : List Nat :=
  cjsCandidateCore snap scope exactOn
    (buildKeysFromTokens (cjsTokenize q) PREFIX_LEN_STRICT)
    (buildKeysFromTokens (tokenizeExactIndex q) PREFIX_LEN_EXACT)
    (buildKeysFromTokens (tokenizeLoose q) PREFIX_LEN_LOOSE)

/-! ### part_004 (the deployed candidates function handler)

Its posting tables are modelled post-decode: each table row carries the
decoded row-id list of its posting blob (the decoder itself is the part_006
function modelled further below). -/

/-- One posting index table with decoded row-id lists. -/
def P4Table : Type := List (List Char × List Nat)

/-- JavaScript Map-based counter bump: out.set(rid, (out.get(rid) or 0) + 1).
The association list keeps insertion order and holds one entry per key, so
Map.set updates that entry in place or appends a fresh one. -/
def bump : List (Nat × Nat) → Nat → List (Nat × Nat)
  | [], rid => [(rid, 1)]
  | (k, v) :: es, rid => if k = rid then (k, v + 1) :: es else (k, v) :: bump es rid

/-- part_004 postingsToHitCountMap: at most 200 keys are queried (the excess
is silently dropped); every decoded row id of every matching posting row bumps
that row id by one. -/
def postingsToHitCountMap (table : P4Table) (keys : List (List Char)) :
    List (Nat × Nat) :=
  if keys = [] then [] else
  let capped := if keys.length > 200 then keys.take 200 else keys
  let rows := table.filter (fun e => e.1 ∈ capped)
  rows.foldl (fun m row => row.2.foldl bump m) []

/-- part_004 mapToMeta: and_hit compares the hit counter against the length
argument the caller passes (the handler passes the uncapped key count). -/
def mapToMeta (hitMap : List (Nat × Nat)) (keysLen : Nat) :
    List (Nat × HitMeta) :=
  hitMap.map (fun e => (e.1, ⟨e.2, if 0 < keysLen then e.2 = keysLen else false⟩))

/-- The key list actually queried by postingsToHitCountMap (the 200-key cap). -/
def cappedKeys (keys : List (List Char)) : List (List Char) :=
  if keys.length > 200 then keys.take 200 else keys

/-- Specification count: the total number of occurrences of rid among the
decoded posting lists of the table rows whose key survives the cap. -/
def hitCountSpec (table : P4Table) (keys : List (List Char)) (rid : Nat) : Nat :=
  (((table.filter (fun e => e.1 ∈ cappedKeys keys)).map
    (fun e => e.2.count rid))).sum

/-- The six posting indexes consulted by the part_004 handler. -/
structure P4Snapshot where
  strictVoter : P4Table
  strictRel : P4Table
  exactVoter : P4Table
  exactRel : P4Table
  looseVoter : P4Table
  looseRel : P4Table

/-- Ascending insertion for the numeric sort of the handler. -/
def insertAsc (x : Nat) : List Nat → List Nat
  | [] => [x]
  | y :: ys => if y ≤ x then y :: insertAsc x ys else x :: y :: ys

/-- The ascending numeric sort of Array.from(all).sort((a,b) => a-b). -/
def sortAsc (l : List Nat) : List Nat := l.foldl (fun acc x => insertAsc x acc) []

/-- part_004 handler, candidate-id part: the six lookups selected by the
scope (the exactOn flag of the request body is read but never used, so the
loose indexes are consulted whenever loose keys are present), then the sorted
union of all hit row ids.  Key lists are filtered for truthiness as in the
source. -/
def p4Candidates (snap : P4Snapshot) (scope : Scope) (exactOn : Bool)
    (strictKeys exactKeys looseKeys : List (List Char)) : List Nat :=
  let keysStrict := strictKeys.filter (fun k => k ≠ [])
  let keysExact := exactKeys.filter (fun k => k ≠ [])
  let keysLoose := looseKeys.filter (fun k => k ≠ [])
  let sv := sideVoter scope (postingsToHitCountMap snap.strictVoter keysStrict)
  let sr := sideRel scope (postingsToHitCountMap snap.strictRel keysStrict)
  let ev := sideVoter scope (postingsToHitCountMap snap.exactVoter keysExact)
  let er := sideRel scope (postingsToHitCountMap snap.exactRel keysExact)
  let lv := sideVoter scope (postingsToHitCountMap snap.looseVoter keysLoose)
  let lr := sideRel scope (postingsToHitCountMap snap.looseRel keysLoose)
  sortAsc (jsDedup ((sv ++ sr ++ ev ++ er ++ lv ++ lr).map (fun e => e.1)))

/-! ### part_006 (netlify/functions/_turso.js): the posting-blob decoder

A blob is a list of bytes (each below 256).  The companion count hint is an
optional integer (asInt of the source returns null for a non-numeric hint).
The 64-bit values are modelled exactly; the source converts them through a
JavaScript double, which is lossless for row ids below 2^53. -/

/-- Truthiness of the companion count: neither null nor zero. -/
def nTruthy (n : Option Int) : Prop :=
  match n with
  | some k => k ≠ 0
  | none => False

instance (n : Option Int) : Decidable (nTruthy n) := by
  unfold nTruthy; cases n <;> infer_instance

/-- The numeric value of the hint (zero when absent, only read under
truthiness). -/
def nVal (n : Option Int) : Int := n.getD 0

/-- decodeU32 of part_006: packed little-endian 32-bit words, a trailing
fragment shorter than four bytes is ignored. -/
def decodeU32 : List Nat → List Nat
  | b0 :: b1 :: b2 :: b3 :: rest =>
    (b0 + b1 * 256 + b2 * 65536 + b3 * 16777216) :: decodeU32 rest
  | _ => []

/-- decodeU64 of part_006: packed little-endian 64-bit words. -/
def decodeU64 : List Nat → List Nat
  | b0 :: b1 :: b2 :: b3 :: b4 :: b5 :: b6 :: b7 :: rest =>
    (b0 + b1 * 256 + b2 * 65536 + b3 * 16777216 + b4 * 4294967296 +
     b5 * 1099511627776 + b6 * 281474976710656 + b7 * 72057594037927936)
      :: decodeU64 rest
  | _ => []

/-- One LEB128 step of the varint loop of part_006, with the 32-bit JavaScript
bitwise semantics: the shift amount is taken modulo 32 and the accumulated
value modulo 2^32; the loop stops on a clear continuation bit, at the end of
the buffer, or when the shift would exceed 35. -/
def varintStep (res shift : Nat) : List Nat → Nat × List Nat
  | [] => (res, [])
  | b :: rest =>
    let res := (Nat.lor res ((Nat.land b 127 * 2 ^ (shift % 32)) % 4294967296)) % 4294967296
    if Nat.land b 128 = 0 then (res, rest)
    else if shift + 7 > 35 then (res, rest)
    else varintStep res (shift + 7) rest

/-- The outer varint loop (fuelled by the buffer length; each value consumes
at least one byte). -/
def varintAll : Nat → List Nat → List Nat
  | 0, _ => []
  | _, [] => []
  | fuel + 1, b :: rest =>
    let s := varintStep 0 0 (b :: rest)
    s.1 :: varintAll fuel s.2

/-- The running-sum (delta) interpretation, each entry reduced modulo 2^32 as
by the unsigned-shift coercion of the source. -/
def deltaSums (l : List Nat) : List Nat :=
  (l.foldl (fun (p : Nat × List Nat) d =>
    (p.1 + d, p.2 ++ [(p.1 + d) % 4294967296])) (0, [])).2

/-- The varint tail of decodeRowIds: direct or delta decoding chosen by the
length hints and the plausibility heuristic of the source. -/
def varintDecode (blob : List Nat) (n : Option Int) : List Nat :=
  let raw := varintAll blob.length blob
  let delta := deltaSums raw
  let directOk := ¬ nTruthy n ∨ (raw.length : Int) = nVal n
  let deltaOk := ¬ nTruthy n ∨ (delta.length : Int) = nVal n
  if directOk ∧ ¬ deltaOk then raw
  else if ¬ directOk ∧ deltaOk then delta
  else
    let maxDirect := raw.foldl max 0
    let maxDelta := delta.foldl max 0
    if maxDirect < 5000 ∧ maxDelta > 5000 then delta else raw

/-- part_006 decodeRowIds: packed fixed-width first (by the companion count,
then by divisibility consistent with the hint), else LEB128 varints with the
delta fallback. -/
def decodeRowIds (blob : List Nat) (n : Option Int) : List Nat :=
  if blob = [] then [] else
  let len := blob.length
  if nTruthy n ∧ (len : Int) = nVal n * 4 then decodeU32 blob
  else if nTruthy n ∧ (len : Int) = nVal n * 8 then decodeU64 blob
  else if len % 4 = 0 ∧ (¬ nTruthy n ∨ ((len / 4 : Nat) : Int) = nVal n) then decodeU32 blob
  else if len % 8 = 0 ∧ (¬ nTruthy n ∨ ((len / 8 : Nat) : Int) = nVal n) then decodeU64 blob
  else varintDecode blob n


/-- The entity list of a word as the add-outside comparison of worker.js sees
it: normalize, strip marks, remove spaces, segment. -/
def aoEntities (w : List Char) : List (List Char) :=
  segmentEntities (removeSpaces (stripMarks (normStrict w)))

/-- The number of aligned-prefix entity pairs that differ, are not matra-like,
and whose substitution falls in no phonetic or visual group (TYPE_OTHER), as
counted by the aligned loop of worker.js compareWordAddOutside. -/
def aoOutsideCount : List (List Char × List Char) → Nat
  | [] => 0
  | (a, b) :: rest =>
    if a = b then aoOutsideCount rest
    else if isMatraLikeUnit a ∨ isMatraLikeUnit b then aoOutsideCount rest
    else if substType a b = TYPE_OTHER then 1 + aoOutsideCount rest
    else aoOutsideCount rest

/-- A string free of JavaScript whitespace. -/
def spaceFree (t : List Char) : Prop := ∀ c ∈ t, isJsSpace c = false

/-- JavaScript Map.prototype.get over the insertion-ordered association list
model. -/
def jsGet {β : Type} (m : List (Nat × β)) (rid : Nat) : Option β :=
  match m with
  | [] => none
  | (k, v) :: es => if rid = k then some v else jsGet es rid

/-- The hit counter a row id holds in a hit-count map, 0 when absent. -/
def hitVal (m : List (Nat × Nat)) (rid : Nat) : Nat := (jsGet m rid).getD 0

/-! ### Helper lemmas -/

theorem mem_jsSetAdd {α : Type} [DecidableEq α] (l : List α) (x a : α) :
    a ∈ jsSetAdd l x ↔ a ∈ l ∨ a = x := by
  unfold jsSetAdd
  split <;> simp_all

theorem nodup_jsSetAdd {α : Type} [DecidableEq α] (l : List α) (x : α)
    (h : l.Nodup) : (jsSetAdd l x).Nodup := by
  unfold jsSetAdd
  split
  · exact h
  · simpa [List.nodup_append] using ⟨h, by assumption⟩

theorem mem_foldl_jsSetAdd {α : Type} [DecidableEq α] (l : List α)
    (acc : List α) (a : α) : a ∈ l.foldl jsSetAdd acc ↔ a ∈ acc ∨ a ∈ l := by
  induction l generalizing acc with
  | nil => simp
  | cons x xs ih => simp [List.foldl_cons, ih, mem_jsSetAdd]; tauto

theorem mem_jsDedup {α : Type} [DecidableEq α] (l : List α) (a : α) :
    a ∈ jsDedup l ↔ a ∈ l := by
  simp [jsDedup, mem_foldl_jsSetAdd]

theorem nodup_foldl_jsSetAdd {α : Type} [DecidableEq α] (l : List α)
    (acc : List α) (h : acc.Nodup) : (l.foldl jsSetAdd acc).Nodup := by
  induction l generalizing acc with
  | nil => exact h
  | cons x xs ih => exact ih _ (nodup_jsSetAdd _ _ h)

theorem nodup_jsDedup {α : Type} [DecidableEq α] (l : List α) :
    (jsDedup l).Nodup := nodup_foldl_jsSetAdd l [] List.nodup_nil

/-- Helper: a list-of-lists is a prefix of w exactly when w extends it. -/
theorem isPrefixOf_append {α : Type} [DecidableEq α] :
    ∀ (e w : List α), e.isPrefixOf w = true → ∃ t, w = e ++ t := by
  intro e
  induction e with
  | nil => exact fun w _ => ⟨w, rfl⟩
  | cons a as ih =>
    intro w h
    cases w with
    | nil => simp [List.isPrefixOf] at h
    | cons b bs =>
      simp only [List.isPrefixOf, Bool.and_eq_true, beq_iff_eq] at h
      obtain ⟨t, ht⟩ := ih bs h.2
      exact ⟨t, by simp [h.1, ht]⟩

/-- Helper: dropping the length of a left append factor recovers the right one. -/
theorem drop_length_append {α : Type} : ∀ (e t : List α), (e ++ t).drop e.length = t := by
  intro e t
  induction e with
  | nil => rfl
  | cons a as ih => simp [ih]

/-- Every entity of the vocabulary is a nonempty string. -/
theorem entity_ne_nil : ∀ e ∈ ENTITY_LIST, e ≠ [] := by decide

/-- The fuelled segmentation loop restores its input by concatenation,
provided the fuel covers the length of the input. -/
theorem segGo_join : ∀ (fuel : Nat) (w : List Char), w.length ≤ fuel →
    (segGo fuel w).flatten = w := by
  intro fuel
  induction fuel with
  | zero =>
    intro w hw
    have : w = [] := by
      cases w with
      | nil => rfl
      | cons c rest => simp at hw
    subst this
    rfl
  | succ n ih =>
    intro w hw
    cases w with
    | nil => rfl
    | cons c rest =>
      show (segGo (n + 1) (c :: rest)).flatten = c :: rest
      unfold segGo
      cases hf : ENTITY_LIST.find? (fun e => e.isPrefixOf (c :: rest)) with
      | some e =>
        have hmem : e ∈ ENTITY_LIST := List.mem_of_find?_eq_some hf
        have hne : e ≠ [] := entity_ne_nil e hmem
        have hpre : e.isPrefixOf (c :: rest) = true := by
          have h := List.find?_some hf
          simpa using h
        obtain ⟨t, ht⟩ := isPrefixOf_append e (c :: rest) hpre
        have hdrop : (c :: rest).drop e.length = t := by
          rw [ht]; exact drop_length_append e t
        have hlen : t.length ≤ n := by
          have h1 : (c :: rest).length = e.length + t.length := by
            rw [ht, List.length_append]
          have h2 : 1 ≤ e.length := by
            cases e with
            | nil => exact absurd rfl hne
            | cons _ _ => simp
          simp only [List.length_cons] at h1 hw
          omega
        simp only [hdrop, List.flatten_cons]
        rw [ih t hlen, ht]
      | none =>
        have hlen : rest.length ≤ n := by
          simp only [List.length_cons] at hw
          omega
        simp only [List.flatten_cons]
        rw [ih rest hlen]
        rfl

/-- Concatenating the segmentation of any word restores the word. -/
theorem segmentEntities_join (w : List Char) : (segmentEntities w).flatten = w :=
  segGo_join w.length w le_rfl


/-! ### Helper lemmas for the comparison families -/

theorem absDiff_self (a : Nat) : absDiff a a = 0 := by simp [absDiff]

theorem fullGo_self (allow : Bool) (acc : CmpAcc) :
    ∀ l : List (List Char), fullGo allow acc (l.zip l) = some acc := by
  intro l
  induction l with
  | nil => rfl
  | cons a as ih =>
    show fullGo allow acc ((a, a) :: as.zip as) = some acc
    simp [fullGo, ih]

theorem exactScenario0Go_scenarioId (q : List Char) (tw : Nat) :
    ∀ (targets : List Target) (best : Option ExactDesc),
      (∀ d, best = some d → d.scenarioId = 0) →
      ∀ d, exactScenario0Go q tw best targets = some d → d.scenarioId = 0 := by
  intro targets
  induction targets with
  | nil => intro best hb d hd; exact hb d hd
  | cons t rest ih =>
    intro best hb d hd
    unfold exactScenario0Go at hd
    by_cases ht : t.text = q
    · simp only [ht, if_true] at hd
      cases best with
      | none =>
        exact ih _ (fun d' hd' => by cases hd'; rfl) d hd
      | some b =>
        refine ih _ (fun d' hd' => ?_) d hd
        cases hd'
        split
        · rfl
        · exact hb b rfl
    · simp only [ht, if_false] at hd
      exact ih best hb d hd

theorem exactScenario0Go_ne_none_of_some (q : List Char) (tw : Nat) :
    ∀ (targets : List Target) (b : ExactDesc),
      exactScenario0Go q tw (some b) targets ≠ none := by
  intro targets
  induction targets with
  | nil => intro b h; exact Option.noConfusion h
  | cons t rest ih =>
    intro b h
    unfold exactScenario0Go at h
    by_cases ht : t.text = q
    · simp only [ht, if_true] at h
      exact ih _ h
    · simp only [ht, if_false] at h
      exact ih _ h

theorem exactScenario0Go_ne_none (q : List Char) (tw : Nat) :
    ∀ (targets : List Target) (best : Option ExactDesc),
      (∃ t ∈ targets, t.text = q) →
      exactScenario0Go q tw best targets ≠ none := by
  intro targets
  induction targets with
  | nil => rintro best ⟨t, ht, _⟩; cases ht
  | cons t0 rest ih =>
    rintro best ⟨t, ht, htq⟩ h
    unfold exactScenario0Go at h
    rcases List.mem_cons.mp ht with rfl | hmem
    · simp only [htq, if_true] at h
      cases best with
      | none => exact exactScenario0Go_ne_none_of_some q tw rest _ h
      | some b => exact exactScenario0Go_ne_none_of_some q tw rest _ h
    · by_cases ht0 : t0.text = q
      · simp only [ht0, if_true] at h
        cases best with
        | none => exact exactScenario0Go_ne_none_of_some q tw rest _ h
        | some b => exact exactScenario0Go_ne_none_of_some q tw rest _ h
      · simp only [ht0, if_false] at h
        exact ih best ⟨t, hmem, htq⟩ h

/-- For a one-word query the exact-scenario evaluator of worker.js never
produces scenario id 1: when the first candidate token equals the query, that
token is itself a position-0 TOKEN target, so the scenario-0 loop already
returns. -/
theorem exactScenarioKey_one_word_ne_one (q : List Char) (cToks : List (List Char)) :
    (exactScenarioKey [q] cToks).map (fun d => d.scenarioId) ≠ some 1 := by
  unfold exactScenarioKey
  cases hf : exactScenario0Fold q cToks.length (buildOneWordTargets cToks) with
  | some best =>
    have h0 : best.scenarioId = 0 :=
      exactScenario0Go_scenarioId q cToks.length _ none (by intro d hd; cases hd) best hf
    simp [hf, h0]
  | none =>
    cases cToks with
    | nil =>
      simp only [List.length_nil] at hf
      simp [hf]
    | cons c0 rest =>
      by_cases hc : c0 = q
      · exfalso
        apply exactScenario0Go_ne_none q (c0 :: rest).length (buildOneWordTargets (c0 :: rest)) none
        · exact ⟨⟨c0, Kind.token, 0, 1⟩, by
            show _ ∈ buildOneWordTargets (c0 :: rest)
            unfold buildOneWordTargets
            apply List.mem_append_left
            apply List.mem_append_left
            show _ ∈ ((c0 :: rest).enum.map _)
            have : (0, c0) ∈ (c0 :: rest).enum := by
              show (0, c0) ∈ (0, c0) :: List.enumFrom 1 rest
              exact List.mem_cons_self _ _
            exact List.mem_map.mpr ⟨(0, c0), this, rfl⟩, hc⟩
        · exact hf
      · simp only [List.length_cons] at hf
        simp [hf, hc]

theorem aoGo_none (maxO : Nat) :
    ∀ (pairs : List (List Char × List Char)) (acc : AoAcc),
      acc.outside ≤ maxO →
      maxO < acc.outside + aoOutsideCount pairs →
      aoGo maxO acc pairs = none := by
  intro pairs
  induction pairs with
  | nil =>
    intro acc hinv h
    simp only [aoOutsideCount] at h
    omega
  | cons p rest ih =>
    intro acc hinv h
    obtain ⟨a, b⟩ := p
    unfold aoGo
    unfold aoOutsideCount at h
    by_cases hab : a = b
    · simp only [if_pos hab] at h ⊢
      exact ih acc hinv h
    · simp only [if_neg hab] at h ⊢
      by_cases hm : isMatraLikeUnit a = true ∨ isMatraLikeUnit b = true
      · simp only [if_pos hm] at h ⊢
        exact ih _ hinv h
      · simp only [if_neg hm] at h ⊢
        by_cases ho : substType a b = TYPE_OTHER
        · simp only [if_pos ho] at h ⊢
          by_cases hcap : acc.outside + 1 > maxO
          · simp only [if_pos hcap]
          · simp only [if_neg hcap]
            apply ih _ (by simp; omega)
            simp only []
            omega
        · simp only [if_neg ho] at h ⊢
          split <;> (try split) <;> (try split) <;> (try split) <;> exact ih _ hinv h

theorem aoGo_some (maxO : Nat) :
    ∀ (pairs : List (List Char × List Char)) (acc : AoAcc),
      acc.outside + aoOutsideCount pairs ≤ maxO →
      ∃ fin, aoGo maxO acc pairs = some fin ∧
        fin.outside = acc.outside + aoOutsideCount pairs := by
  intro pairs
  induction pairs with
  | nil =>
    intro acc h
    exact ⟨acc, rfl, by simp [aoOutsideCount]⟩
  | cons p rest ih =>
    intro acc h
    obtain ⟨a, b⟩ := p
    unfold aoGo
    unfold aoOutsideCount at h ⊢
    by_cases hab : a = b
    · simp only [if_pos hab] at h ⊢
      exact ih acc h
    · simp only [if_neg hab] at h ⊢
      by_cases hm : isMatraLikeUnit a = true ∨ isMatraLikeUnit b = true
      · simp only [if_pos hm] at h ⊢
        exact ih _ h
      · simp only [if_neg hm] at h ⊢
        by_cases ho : substType a b = TYPE_OTHER
        · simp only [if_pos ho] at h ⊢
          have hcap : ¬ acc.outside + 1 > maxO := by omega
          simp only [if_neg hcap]
          obtain ⟨fin, hfin, hout⟩ := ih
            { acc with outside := acc.outside + 1, con := acc.con + 1 }
            (by simp; omega)
          exact ⟨fin, hfin, by simp at hout; omega⟩
        · simp only [if_neg ho] at h ⊢
          split <;> (try split) <;> (try split) <;> (try split) <;> exact ih _ h

theorem aoTail_none (qLen additions marksDiff : Nat) (qEnt cEnt : List (List Char))
    (h : outsideSubsCapByLen qLen < aoOutsideCount (qEnt.zip (cEnt.take qLen))) :
    aoTail qLen additions marksDiff qEnt cEnt = none := by
  simp only [aoTail]
  rw [aoGo_none (outsideSubsCapByLen qLen) (qEnt.zip (cEnt.take qLen))
    ⟨0, 0, marksDiff, 0, 0, 0, 0⟩ (Nat.zero_le _) (by simpa using h)]

theorem aoTail_some (qLen additions marksDiff : Nat) (qEnt cEnt : List (List Char))
    (h : aoOutsideCount (qEnt.zip (cEnt.take qLen)) ≤ outsideSubsCapByLen qLen) :
    ∃ r, aoTail qLen additions marksDiff qEnt cEnt = some r ∧
      r.outsideSubs = aoOutsideCount (qEnt.zip (cEnt.take qLen)) ∧
      r.additions = additions := by
  obtain ⟨fin, hfin, hout⟩ := aoGo_some (outsideSubsCapByLen qLen)
    (qEnt.zip (cEnt.take qLen)) ⟨0, 0, marksDiff, 0, 0, 0, 0⟩ (by simpa using h)
  refine ⟨⟨qLen, additions, fin.outside, fin.con, fin.matra,
    computeTypeBucket fin.con fin.phon fin.v0 fin.v1 fin.v2⟩, ?_, ?_, rfl⟩
  · simp only [aoTail]
    rw [hfin]
  · simpa using hout

/-- Concrete evaluation of the worker on query राम against the row whose voter
name is रामा and whose relative name is राम, with the scope the app actually
sends for an anywhere search. -/
theorem evaluateRow_ram_rama :
    evaluateRow (scopeForWorker Scope.anywhere) false [String.toList "राम"]
        ⟨String.toList "रामा", String.toList "राम", String.toList "1"⟩ =
      some ⟨[1, 2, 0, 1, 0, 0, 0, 0, 1], Field.voter⟩ := rfl

/-- Concrete evaluation of the spec-described anywhere scoring on the same
query and row. -/
theorem claimedAnywhere_ram_rama :
    claimedAnywhereResult [String.toList "राम"] false
        ⟨String.toList "रामा", String.toList "राम", String.toList "1"⟩ =
      some ⟨[0, 0, 0, 0, 0, 1, 1], Field.relative⟩ := rfl

/-! ### Helper lemmas for the key builders -/

theorem mem_foldl_jsSetAdd_map {α β : Type} [DecidableEq β] (f : α → β)
    (l : List α) (acc : List β) (x : β) :
    x ∈ l.foldl (fun acc s => jsSetAdd acc (f s)) acc ↔
      x ∈ acc ∨ ∃ s ∈ l, f s = x := by
  induction l generalizing acc with
  | nil => simp
  | cons a as ih =>
    simp only [List.foldl_cons, ih, mem_jsSetAdd]
    constructor
    · rintro (( h | h) | h)
      · exact Or.inl h
      · exact Or.inr ⟨a, by simp, h.symm⟩
      · obtain ⟨s, hs, hf⟩ := h
        exact Or.inr ⟨s, by simp [hs], hf⟩
    · rintro (h | ⟨s, hs, hf⟩)
      · exact Or.inl (Or.inl h)
      · rcases List.mem_cons.mp hs with rfl | hs
        · exact Or.inl (Or.inr hf.symm)
        · exact Or.inr ⟨s, hs, hf⟩

theorem removeSpaces_of_spaceFree {t : List Char} (h : spaceFree t) :
    removeSpaces t = t := by
  unfold removeSpaces
  rw [List.filter_eq_self]
  intro c hc
  simp [h c hc]

theorem spaceFree_append {a b : List Char} (ha : spaceFree a) (hb : spaceFree b) :
    spaceFree (a ++ b) := by
  intro c hc
  rcases List.mem_append.mp hc with h | h
  · exact ha c h
  · exact hb c h

theorem spaceFree_flatten {l : List (List Char)} (h : ∀ t ∈ l, spaceFree t) :
    spaceFree l.flatten := by
  intro c hc
  obtain ⟨t, ht, hct⟩ := List.mem_flatten.mp hc
  exact h t ht c hct

theorem removeSpaces_joinSp {l : List (List Char)} (h : ∀ t ∈ l, spaceFree t) :
    removeSpaces (joinSp l) = l.flatten := by
  induction l with
  | nil => rfl
  | cons a as ih =>
    cases as with
    | nil =>
      show removeSpaces (joinSp [a]) = [a].flatten
      have hja : joinSp [a] = a := by simp [joinSp]
      rw [hja]
      simp only [List.flatten_cons, List.flatten_nil, List.append_nil]
      exact removeSpaces_of_spaceFree (h a (by simp))
    | cons b bs =>
      have hstep : joinSp (a :: b :: bs) = a ++ ' ' :: joinSp (b :: bs) := by
        simp [joinSp, List.intersperse_cons_cons]
      rw [hstep]
      unfold removeSpaces at ih ⊢
      rw [List.filter_append]
      have h1 : a.filter (fun c => ¬ isJsSpace c) = a :=
        removeSpaces_of_spaceFree (h a (by simp))
      rw [h1]
      have h2 : (' ' :: joinSp (b :: bs)).filter (fun c => ¬ isJsSpace c) =
          (joinSp (b :: bs)).filter (fun c => ¬ isJsSpace c) := by
        simp [List.filter_cons, isJsSpace]
      rw [h2, ih (fun t ht => h t (by simp [ht]))]
      simp

theorem flatten_mergeSlice :
    ∀ (i : Nat) (toks : List (List Char)), i + 1 < toks.length →
      (mergeSlice i toks).flatten = toks.flatten := by
  intro i
  induction i with
  | zero =>
    intro toks h
    match toks, h with
    | a :: b :: rest, _ =>
      simp [mergeSlice, List.getD]
  | succ n ih =>
    intro toks h
    match toks, h with
    | a :: rest, h =>
      have hr : n + 1 < rest.length := by simpa using h
      have hrec := ih rest hr
      show (mergeSlice (n + 1) (a :: rest)).flatten = (a :: rest).flatten
      have hms : mergeSlice (n + 1) (a :: rest) = a :: mergeSlice n rest := by
        simp [mergeSlice, List.take_succ_cons, List.getD_cons_succ,
          List.drop_succ_cons]
      rw [hms, List.flatten_cons, List.flatten_cons, hrec]

theorem spaceFree_getD {toks : List (List Char)}
    (h : ∀ t ∈ toks, spaceFree t) (i : Nat) : spaceFree (toks.getD i []) := by
  unfold List.getD
  cases hg : toks.get? i with
  | none => intro c hc; cases hc
  | some t =>
    have : t ∈ toks := List.get?_mem hg
    simpa [hg] using h t this

theorem spaceFree_mergeSlice {toks : List (List Char)}
    (h : ∀ t ∈ toks, spaceFree t) (i : Nat) :
    ∀ t ∈ mergeSlice i toks, spaceFree t := by
  intro t ht
  unfold mergeSlice at ht
  rcases List.mem_append.mp ht with ht | ht
  · rcases List.mem_append.mp ht with ht | ht
    · exact h t (List.take_subset _ _ ht)
    · rcases List.mem_singleton.mp ht with rfl
      exact spaceFree_append (spaceFree_getD h i) (spaceFree_getD h (i + 1))
  · exact h t (List.drop_subset _ _ ht)

theorem flatten_mem_joinVariants (tokens : List (List Char))
    (hn : 2 ≤ tokens.length)
    (hne : ∀ t ∈ tokens, t ≠ [])
    (hsf : ∀ t ∈ tokens, spaceFree t) :
    tokens.flatten ∈ joinVariantsTokens tokens := by
  unfold joinVariantsTokens
  have hfil : tokens.filter (fun t => t ≠ []) = tokens := by
    rw [List.filter_eq_self]
    intro a ha
    simp [hne a ha]
  rw [hfil]
  have hn1 : ¬ tokens.length ≤ 1 := by omega
  rw [if_neg hn1]
  by_cases hn3 : tokens.length ≤ 3
  · rw [if_pos hn3]
    rw [mem_foldl_jsSetAdd_map]
    right
    refine ⟨tokens.flatten, ?_, removeSpaces_of_spaceFree (spaceFree_flatten hsf)⟩
    rw [mem_jsSetAdd]
    right
    rfl
  · rw [if_neg hn3]
    rw [mem_jsSetAdd]
    right
    rfl

/-! ### Helper lemmas for the index lookups -/

theorem cjsCandidateCore_mono (snap : CjsSnapshot) (scope : Scope)
    (sk ek lk : List (List Char)) (r : Nat)
    (h : r ∈ cjsCandidateCore snap scope true sk ek lk) :
    r ∈ cjsCandidateCore snap scope false sk ek lk := by
  unfold cjsCandidateCore at h ⊢
  dsimp only [Bool.not_true, Bool.not_false] at h ⊢
  split at h
  · simp at h
  · rename_i hcond
    rw [if_neg hcond]
    rw [mem_jsDedup] at h ⊢
    simp only [Bool.false_eq_true, if_false, if_pos rfl, List.map_append,
      List.mem_append, List.map_nil, List.not_mem_nil, or_false] at h ⊢
    tauto

theorem hitVal_bump (m : List (Nat × Nat)) (r rid : Nat) :
    hitVal (bump m r) rid = hitVal m rid + (if rid = r then 1 else 0) := by
  induction m with
  | nil =>
    by_cases hr : rid = r <;> simp [bump, hitVal, jsGet, hr]
  | cons e es ih =>
    obtain ⟨k, v⟩ := e
    by_cases hk : k = r
    · subst hk
      by_cases hr : rid = k <;> simp [bump, hitVal, jsGet, hr]
    · by_cases hr : rid = k
      · have hrr : ¬ rid = r := by rw [hr]; exact hk
        simp only [bump, if_neg hk]
        simp only [hitVal, jsGet, if_pos hr]
        simp [hrr]
      · simp only [bump, if_neg hk]
        simp only [hitVal, jsGet, if_neg hr]
        exact ih

theorem hitVal_foldl_bump (rids : List Nat) (m : List (Nat × Nat)) (rid : Nat) :
    hitVal (rids.foldl bump m) rid = hitVal m rid + rids.count rid := by
  induction rids generalizing m with
  | nil => simp
  | cons r rest ih =>
    simp only [List.foldl_cons, ih, hitVal_bump]
    rw [List.count_cons]
    by_cases hr : rid = r
    · simp [hr]
      omega
    · have hr2 : ¬ (r = rid) := fun hc => hr hc.symm
      simp [hr, hr2]

theorem hitVal_fold_rows (rows : List (List Char × List Nat))
    (m : List (Nat × Nat)) (rid : Nat) :
    hitVal (rows.foldl (fun m row => row.2.foldl bump m) m) rid =
      hitVal m rid + (rows.map (fun row => row.2.count rid)).sum := by
  induction rows generalizing m with
  | nil => simp
  | cons row rest ih =>
    simp only [List.foldl_cons, ih, hitVal_foldl_bump, List.map_cons, List.sum_cons]
    omega

theorem postingsHit_jsGet (table : P4Table) (keys : List (List Char))
    (rid hc : Nat)
    (h : jsGet (postingsToHitCountMap table keys) rid = some hc) :
    hc = hitCountSpec table keys rid := by
  unfold postingsToHitCountMap at h
  by_cases hk : keys = []
  · rw [if_pos hk] at h
    simp [jsGet] at h
  · rw [if_neg hk] at h
    have hv := hitVal_fold_rows
      (table.filter (fun e => e.1 ∈ (if keys.length > 200 then keys.take 200 else keys)))
      [] rid
    unfold hitVal at hv
    rw [h] at hv
    simp [jsGet] at hv
    rw [hv]
    rfl

theorem jsGet_mapToMeta (hm : List (Nat × Nat)) (len rid : Nat) :
    jsGet (mapToMeta hm len) rid =
      (jsGet hm rid).map
        (fun h => (⟨h, if 0 < len then decide (h = len) else false⟩ : HitMeta)) := by
  induction hm with
  | nil => rfl
  | cons e es ih =>
    obtain ⟨k, v⟩ := e
    by_cases hk : rid = k
    · simp [mapToMeta, jsGet, hk]
    · simp only [mapToMeta, List.map_cons, jsGet, if_neg hk]
      simpa [mapToMeta] using ih

/-! ### Helper lemmas for the posting decoder -/

theorem decodeU32_length : ∀ bs : List Nat, (decodeU32 bs).length = bs.length / 4
  | b0 :: b1 :: b2 :: b3 :: rest => by
    simp only [decodeU32, List.length_cons, decodeU32_length rest]
    omega
  | [] => rfl
  | [a] => by simp [decodeU32]
  | [a, b] => by simp [decodeU32]
  | [a, b, c] => by simp [decodeU32]

theorem decodeU64_length : ∀ bs : List Nat, (decodeU64 bs).length = bs.length / 8
  | b0 :: b1 :: b2 :: b3 :: b4 :: b5 :: b6 :: b7 :: rest => by
    simp only [decodeU64, List.length_cons, decodeU64_length rest]
    omega
  | [] => rfl
  | [a] => by simp [decodeU64]
  | [a, b] => by simp [decodeU64]
  | [a, b, c] => by simp [decodeU64]
  | [a, b, c, d] => by simp [decodeU64]
  | [a, b, c, d, e] => by simp [decodeU64]
  | [a, b, c, d, e, f] => by simp [decodeU64]
  | [a, b, c, d, e, f, g] => by simp [decodeU64]

/-! ### The claims -/

/-- Claim C1 (corrected): restricted to the worker, the claim holds — for a
row with non-empty voter and relative token lists, evaluateRow with scope
anywhere scores both fields and keeps the lexicographically smaller key,
voter winning ties, exactly as the spec-described claimedAnywhereResult.
But the app rewrites the anywhere UI scope to the voter scope before calling
the worker (scopeForWorker), so the engine as invoked never scores the
relative field for an anywhere search. -/
theorem c1_anywhere_scope (qTokens : List (List Char)) (exactOn : Bool) (row : Row)
    (hv : tokenizeStrict row.voter_name_raw ≠ [])
    (hr : tokenizeStrict row.relative_name_raw ≠ []) :
    evaluateRow Scope.anywhere exactOn qTokens row =
      claimedAnywhereResult qTokens exactOn row ∧
    scopeForWorker Scope.anywhere = Scope.voter := by
  refine ⟨?_, rfl⟩
  simp only [evaluateRow, claimedAnywhereResult, considerField, if_neg hv, if_neg hr]
  cases hV : evaluateAgainstField qTokens (tokenizeStrict row.voter_name_raw)
      (parseSerial row.serial_no) Field.voter exactOn with
  | none =>
    cases hR : evaluateAgainstField qTokens (tokenizeStrict row.relative_name_raw)
        (parseSerial row.serial_no) Field.relative exactOn with
    | none => simp
    | some b => simp
  | some a =>
    cases hR : evaluateAgainstField qTokens (tokenizeStrict row.relative_name_raw)
        (parseSerial row.serial_no) Field.relative exactOn with
    | none => simp
    | some b =>
      simp only []
      by_cases hlt : cmpKey b.key a.key < 0
      · simp [hlt]
      · rw [if_neg hlt, if_neg hlt]
        by_cases heq : cmpKey b.key a.key = 0
        · simp [heq]
        · simp [heq]

/-- The behaviour the scope rewrite produces end to end on a concrete
search: the query राम against a row whose relative name matches exactly is
scored on the voter field only, and the result differs from the
spec-described anywhere result, which would keep the relative field's exact
key. -/
theorem c1_anywhere_scope_counterexample :
    evaluateRow (scopeForWorker Scope.anywhere) false [String.toList "राम"]
        ⟨String.toList "रामा", String.toList "राम", String.toList "1"⟩ =
      some ⟨[1, 2, 0, 1, 0, 0, 0, 0, 1], Field.voter⟩ ∧
    claimedAnywhereResult [String.toList "राम"] false
        ⟨String.toList "रामा", String.toList "राम", String.toList "1"⟩ =
      some ⟨[0, 0, 0, 0, 0, 1, 1], Field.relative⟩ ∧
    ¬ evaluateRow (scopeForWorker Scope.anywhere) false [String.toList "राम"]
        ⟨String.toList "रामा", String.toList "राम", String.toList "1"⟩ =
      claimedAnywhereResult [String.toList "राम"] false
        ⟨String.toList "रामा", String.toList "राम", String.toList "1"⟩ := by
  refine ⟨evaluateRow_ram_rama, claimedAnywhere_ram_rama, ?_⟩
  intro h
  rw [evaluateRow_ram_rama, claimedAnywhere_ram_rama] at h
  exact absurd h (by decide)

theorem c1_anywhere_scope_witness :
    evaluateRow Scope.anywhere false [String.toList "राम"]
        ⟨String.toList "रामा", String.toList "राम", String.toList "1"⟩ =
      claimedAnywhereResult [String.toList "राम"] false
        ⟨String.toList "रामा", String.toList "राम", String.toList "1"⟩ ∧
    scopeForWorker Scope.anywhere = Scope.voter :=
  c1_anywhere_scope _ _ _ (by decide) (by decide)

/-- Claim C2 (corrected): compareWordFull on the identical pair (w, w), for
either value of the allow flag, returns ok with zero consonant mismatches,
zero matra mismatches and type bucket zero — provided normalizing, stripping
marks and removing spaces leaves w non-empty. A word of marks alone refutes
the unconditional claim (see the counterexample). -/
theorem c2_compareFull_identity (w : List Char) (allow : Bool)
    (h : removeSpaces (stripMarks (normStrict w)) ≠ []) :
    compareWordFull w w allow = some ⟨0, 0, 0, 0, 0, 0, 0⟩ := by
  have hq : normStrict w ≠ [] := by
    intro hq
    apply h
    rw [hq]
    rfl
  unfold compareWordFull
  simp only [hq, or_self, if_false, absDiff_self, h, ne_eq, not_true_eq_false,
    if_neg, fullGo_self]
  simp [fullGo_self, computeTypeBucket, MAX_CONS_MISMATCH_PER_WORD]

/-- The word made of the single combining mark virama segments to nothing, and
compareWordFull on it against itself fails instead of returning ok. -/
theorem c2_compareFull_identity_counterexample :
    compareWordFull (String.toList "्") (String.toList "्") true = none := by
  decide

theorem c2_compareFull_identity_witness :
    removeSpaces (stripMarks (normStrict (String.toList "राम"))) ≠ [] ∧
    compareWordFull (String.toList "राम") (String.toList "राम") true =
      some ⟨0, 0, 0, 0, 0, 0, 0⟩ :=
  ⟨by decide, c2_compareFull_identity (String.toList "राम") true (by decide)⟩

/-- Claim C3 (confirmed): for every string s, concatenating in order the
entities segmentEntities produces on stripMarks s yields exactly
stripMarks s. -/
theorem c3_segmentation_totality (s : List Char) :
    (segmentEntities (stripMarks s)).flatten = stripMarks s :=
  segmentEntities_join (stripMarks s)

/-- Claim C4 (confirmed): the add-outside comparison fails whenever the number
of aligned-prefix entity mismatches lying in no substitution group exceeds
outsideSubsCapByLen of the query entity count (0 up to 2 entities, 1 at 3,
2 from 4 to 8, 3 from 9 on); and outside mismatches up to that cap do not by
themselves cause failure: with typo families allowed, both words non-empty
after normalization, the candidate at least as long as the query and any
addition cap respected, the comparison returns ok carrying exactly the
outside count and the length difference as additions. -/
theorem c4_outside_cap (qWord cWord : List Char) (allow : Bool) (addCap : Option Nat) :
    (outsideSubsCapByLen (aoEntities qWord).length <
        aoOutsideCount ((aoEntities qWord).zip
          ((aoEntities cWord).take (aoEntities qWord).length)) →
      compareWordAddOutside qWord cWord allow addCap = none) ∧
    (allow = true →
     removeSpaces (stripMarks (normStrict qWord)) ≠ [] →
     removeSpaces (stripMarks (normStrict cWord)) ≠ [] →
     (aoEntities qWord).length ≤ (aoEntities cWord).length →
     (∀ cap, addCap = some cap →
        (aoEntities cWord).length - (aoEntities qWord).length ≤ cap) →
     aoOutsideCount ((aoEntities qWord).zip
        ((aoEntities cWord).take (aoEntities qWord).length)) ≤
        outsideSubsCapByLen (aoEntities qWord).length →
     ∃ r, compareWordAddOutside qWord cWord allow addCap = some r ∧
       r.outsideSubs = aoOutsideCount ((aoEntities qWord).zip
          ((aoEntities cWord).take (aoEntities qWord).length)) ∧
       r.additions = (aoEntities cWord).length - (aoEntities qWord).length) := by
  constructor
  · intro hcap
    simp only [aoEntities] at hcap
    simp only [compareWordAddOutside]
    by_cases ha : allow = false
    · rw [if_pos ha]
    · rw [if_neg ha]
      by_cases hr : normStrict qWord = [] ∨ normStrict cWord = []
      · rw [if_pos hr]
      · rw [if_neg hr]
        by_cases hqc : removeSpaces (stripMarks (normStrict qWord)) = [] ∨
            removeSpaces (stripMarks (normStrict cWord)) = []
        · rw [if_pos hqc]
        · rw [if_neg hqc]
          by_cases hlen : (segmentEntities (removeSpaces (stripMarks (normStrict cWord)))).length <
              (segmentEntities (removeSpaces (stripMarks (normStrict qWord)))).length
          · rw [if_pos hlen]
          · rw [if_neg hlen]
            cases addCap with
            | none =>
              simp only [Option.isSome_none, Bool.false_eq_true, dite_false]
              exact aoTail_none _ _ _ _ _ hcap
            | some cap =>
              simp only [Option.isSome_some, dite_true]
              by_cases hadd : (segmentEntities (removeSpaces (stripMarks (normStrict cWord)))).length -
                  (segmentEntities (removeSpaces (stripMarks (normStrict qWord)))).length >
                  (some cap).get rfl
              · rw [if_pos hadd]
              · rw [if_neg hadd]
                exact aoTail_none _ _ _ _ _ hcap
  · intro ha hq hc hlen hcapc hcnt
    simp only [aoEntities] at hcapc hcnt hlen ⊢
    simp only [compareWordAddOutside]
    rw [if_neg (by simp [ha])]
    rw [if_neg (by
      rintro (h | h)
      · exact hq (by rw [h]; rfl)
      · exact hc (by rw [h]; rfl))]
    rw [if_neg (by
      rintro (h | h)
      · exact hq h
      · exact hc h)]
    rw [if_neg (by omega)]
    cases addCap with
    | none =>
      simp only [Option.isSome_none, Bool.false_eq_true, dite_false]
      exact aoTail_some _ _ _ _ _ hcnt
    | some cap =>
      simp only [Option.isSome_some, dite_true]
      rw [if_neg (by
        have := hcapc cap rfl
        simp only [Option.get_some]
        omega)]
      exact aoTail_some _ _ _ _ _ hcnt

theorem c4_outside_cap_witness :
    ∃ r, compareWordAddOutside (String.toList "राम") (String.toList "रामा") true none =
        some r ∧
      r.outsideSubs = aoOutsideCount ((aoEntities (String.toList "राम")).zip
        ((aoEntities (String.toList "रामा")).take (aoEntities (String.toList "राम")).length)) ∧
      r.additions = (aoEntities (String.toList "रामा")).length -
        (aoEntities (String.toList "राम")).length :=
  (c4_outside_cap (String.toList "राम") (String.toList "रामा") true none).2 rfl
    (by decide) (by decide) (by decide) (fun cap h => Option.noConfusion h) (by decide)

/-- Claim C5 (corrected): the query राम against the candidate रामा with typo
families enabled fails compareWordFull (2 query entities against 3) and the
add-outside family succeeds with additions 1, outside substitutions 0 and
type bucket 0; but the produced ranking key is [1,2,0,1,0,0,0,0,serial], not
the claimed [1,2,0,1,0,0,0,1,serial]: the slot before the serial holds the
matched target's position inside the candidate, which is 0 here. -/
theorem c5_ram_rama (serialNo : Nat) :
    evaluateAgainstField [String.toList "राम"] [String.toList "रामा"] serialNo Field.voter false =
      some ⟨[1, 2, 0, 1, 0, 0, 0, 0, (serialNo : ℚ)], Field.voter⟩ := by
  rfl

/-- The claimed key [1,2,0,1,0,0,0,1,serial] is not what the engine produces
at serial 1: the actual key ends 0, 1 where the claim reads 1, 1. -/
theorem c5_ram_rama_counterexample :
    evaluateAgainstField [String.toList "राम"] [String.toList "रामा"] 1 Field.voter false =
      some ⟨[1, 2, 0, 1, 0, 0, 0, 0, 1], Field.voter⟩ ∧
    ¬ (evaluateAgainstField [String.toList "राम"] [String.toList "रामा"] 1 Field.voter false).map
        (fun r => r.key) = some [1, 2, 0, 1, 0, 0, 0, 1, 1] := by
  constructor
  · decide
  · decide

/-- Claim C6 (corrected): in candidates.js the candidate set produced with
exactOnly true is contained in the set produced with exactOnly false, the
loose family being consulted only when exactOnly is false; the deployed
part_004 handler, however, ignores the flag altogether — its candidate set is
the same function of the keys for both settings, the loose family always
consulted (see the counterexample). -/
theorem c6_exactOnly_containment :
    (∀ (snap : CjsSnapshot) (q : List Char) (scope : Scope) (r : Nat),
       r ∈ getCandidatesForQuery snap q scope true →
       r ∈ getCandidatesForQuery snap q scope false) ∧
    (∀ (snap : P4Snapshot) (scope : Scope)
       (strictKeys exactKeys looseKeys : List (List Char)),
       p4Candidates snap scope true strictKeys exactKeys looseKeys =
       p4Candidates snap scope false strictKeys exactKeys looseKeys) := by
  constructor
  · intro snap q scope r h
    exact cjsCandidateCore_mono snap scope _ _ _ r h
  · intro snap scope a b c
    cases scope <;> rfl

/-- In the deployed handler a snapshot whose only posting lives in the loose
voter index still yields that candidate when exactOnly is true, while the
empty snapshot yields nothing: the loose family is consulted regardless of
the flag. -/
theorem c6_exactOnly_containment_counterexample :
    p4Candidates ⟨[], [], [], [], [(String.toList "क", [7])], []⟩ Scope.voter true
        [] [] [String.toList "क"] = [7] ∧
    p4Candidates ⟨[], [], [], [], [], []⟩ Scope.voter true
        [] [] [String.toList "क"] = [] := by
  constructor
  · decide
  · decide

theorem c6_exactOnly_containment_witness :
    7 ∈ getCandidatesForQuery ⟨[(String.toList "राम", 7)], [], [], [], [], []⟩
        (String.toList "राम") Scope.voter false ∧
    p4Candidates ⟨[], [], [], [], [], []⟩ Scope.anywhere true [] [] [] =
      p4Candidates ⟨[], [], [], [], [], []⟩ Scope.anywhere false [] [] [] :=
  ⟨c6_exactOnly_containment.1 _ _ _ 7 (by decide), c6_exactOnly_containment.2 _ _ _ _ _⟩

/-- Claim C7 (corrected): in the deployed part_004 lookup a row's and_hit flag
is true iff the key list is non-empty and the row's hit counter equals the
length of the whole key list passed in — not the number of keys actually
queried: beyond the 200-key cap only the first 200 keys are consulted while
the threshold keeps the uncapped length, so and_hit can never be true (see
the counterexample). In candidates.js queryIndexCandidates, which caps
nothing, and_hit is exactly hit_count = keys.length as claimed. -/
theorem c7_and_hit (table : P4Table) (keys : List (List Char)) (rid : Nat)
    (m : HitMeta)
    (h : jsGet (mapToMeta (postingsToHitCountMap table keys) keys.length) rid =
      some m) :
    ((m.and_hit = true ↔ 0 < keys.length ∧ m.hit_count = keys.length) ∧
     m.hit_count = hitCountSpec table keys rid) ∧
    (∀ (table2 : IdxTable) (keys2 : List (List Char)) (hm : HitMeta),
      (rid, hm) ∈ queryIndexCandidates table2 keys2 →
      (hm.and_hit = true ↔ hm.hit_count = keys2.length)) := by
  constructor
  · rw [jsGet_mapToMeta] at h
    cases hl : jsGet (postingsToHitCountMap table keys) rid with
    | none => rw [hl] at h; cases h
    | some hc =>
      rw [hl] at h
      have h2 : (⟨hc, if 0 < keys.length then decide (hc = keys.length)
          else false⟩ : HitMeta) = m := Option.some.inj h
      cases h2
      constructor
      · by_cases hlen : 0 < keys.length
        · simp only [if_pos hlen]
          simp [hlen, decide_eq_true_iff]
        · simp only [if_neg hlen]
          simp [hlen]
      · exact postingsHit_jsGet table keys rid hc hl
  · intro table2 keys2 hm hmem
    unfold queryIndexCandidates at hmem
    by_cases hk : keys2 = []
    · rw [if_pos hk] at hmem
      cases hmem
    · rw [if_neg hk] at hmem
      simp only [List.mem_map] at hmem
      obtain ⟨r2, hr2, heq⟩ := hmem
      have hval := congrArg Prod.snd heq
      simp only [] at hval
      rw [← hval]
      simp [decide_eq_true_iff]

set_option maxHeartbeats 2000000 in
/-- 201 single-character keys, each posting exactly row 5: only 200 keys are
queried, so row 5 reaches hit count 200 while the threshold is 201, and
and_hit stays false even though the row matched every key consulted. -/
theorem c7_and_hit_counterexample :
    jsGet (mapToMeta (postingsToHitCountMap
        ((List.range 201).map (fun i => ([Char.ofNat (65 + i)], [5])))
        ((List.range 201).map (fun i => [Char.ofNat (65 + i)])))
        ((List.range 201).map (fun i => [Char.ofNat (65 + i)])).length) 5 =
      some ⟨200, false⟩ ∧
    (cappedKeys ((List.range 201).map (fun i => [Char.ofNat (65 + i)]))).length = 200 := by
  constructor
  · decide
  · decide

theorem c7_and_hit_witness :
    (((⟨1, true⟩ : HitMeta).and_hit = true ↔
        0 < ([String.toList "क"] : List (List Char)).length ∧
        (⟨1, true⟩ : HitMeta).hit_count =
          ([String.toList "क"] : List (List Char)).length) ∧
      (⟨1, true⟩ : HitMeta).hit_count =
        hitCountSpec [(String.toList "क", [5])] [String.toList "क"] 5) :=
  (c7_and_hit [(String.toList "क", [5])] [String.toList "क"] 5 ⟨1, true⟩
    (by decide)).1

/-- Claim C8 (corrected): in candidates.js the key set for n at least 2
space-free non-empty tokens does contain the first-p prefix of every
adjacent-pair merge variant and of the full join, deduplicated — but only
because the prefix function strips spaces, which collapses every variant to
the same first-p prefix of the all-concatenated token string; in app.js the
variant builder emits bare adjacent-pair concatenations only, and for three
or more tokens the fully-joined form is absent (see the counterexample). -/
theorem c8_join_variant_keys (tokens : List (List Char)) (p : Nat)
    (hn : 2 ≤ tokens.length)
    (hne : ∀ t ∈ tokens, t ≠ [])
    (hsf : ∀ t ∈ tokens, ∀ c ∈ t, isJsSpace c = false)
    (hp : 0 < p) :
    (∀ i, i + 1 < tokens.length →
      prefixN (joinSp (mergeSlice i tokens)) p ∈ buildKeysFromTokens tokens p) ∧
    prefixN tokens.flatten p ∈ buildKeysFromTokens tokens p ∧
    (buildKeysFromTokens tokens p).Nodup := by
  have hsf' : ∀ t ∈ tokens, spaceFree t := hsf
  have hflat : prefixN tokens.flatten p = tokens.flatten.take p := by
    unfold prefixN
    rw [removeSpaces_of_spaceFree (spaceFree_flatten hsf')]
  have hfne : tokens.flatten ≠ [] := by
    match tokens, hn, hne with
    | t0 :: rest, _, hne =>
      have h0 : t0 ≠ [] := hne t0 (by simp)
      simp only [List.flatten_cons]
      intro hcon
      exact h0 (List.append_eq_nil.mp hcon).1
  have hkne : prefixN tokens.flatten p ≠ [] := by
    rw [hflat]
    intro hcon
    rcases List.take_eq_nil_iff.mp hcon with h | h
    · omega
    · exact hfne h
  have hmem : prefixN tokens.flatten p ∈ buildKeysFromTokens tokens p := by
    unfold buildKeysFromTokens
    rw [mem_jsDedup]
    apply List.mem_append_right
    apply List.mem_filter.mpr
    refine ⟨List.mem_map.mpr ⟨tokens.flatten, flatten_mem_joinVariants tokens hn hne hsf', rfl⟩, ?_⟩
    simpa using hkne
  refine ⟨?_, hmem, nodup_jsDedup _⟩
  intro i hi
  have : prefixN (joinSp (mergeSlice i tokens)) p = prefixN tokens.flatten p := by
    unfold prefixN
    rw [removeSpaces_joinSp (spaceFree_mergeSlice hsf' i)]
    rw [flatten_mergeSlice i tokens hi]
    rw [removeSpaces_of_spaceFree (spaceFree_flatten hsf')]
  rw [this]
  exact hmem

/-- For the three tokens क, म, ल the app key builder omits the prefix of the
fully-joined concatenation कमल. -/
theorem c8_join_variant_keys_counterexample :
    appPrefixN ([String.toList "क", String.toList "म", String.toList "ल"] :
        List (List Char)).flatten 3 = String.toList "कमल" ∧
    appPrefixN ([String.toList "क", String.toList "म", String.toList "ल"] :
        List (List Char)).flatten 3 ∉
      appBuildKeysFromTokens [String.toList "क", String.toList "म", String.toList "ल"] 3 := by
  constructor
  · decide
  · decide

theorem c8_join_variant_keys_witness :
    prefixN (joinSp (mergeSlice 0
        [String.toList "क", String.toList "म", String.toList "ल"])) 3 ∈
      buildKeysFromTokens [String.toList "क", String.toList "म", String.toList "ल"] 3 ∧
    prefixN ([String.toList "क", String.toList "म", String.toList "ल"] :
        List (List Char)).flatten 3 ∈
      buildKeysFromTokens [String.toList "क", String.toList "म", String.toList "ल"] 3 ∧
    (buildKeysFromTokens [String.toList "क", String.toList "म", String.toList "ल"] 3).Nodup :=
  ⟨(c8_join_variant_keys [String.toList "क", String.toList "म", String.toList "ल"] 3
      (by decide) (by decide) (by decide) (by decide)).1 0 (by decide),
   (c8_join_variant_keys [String.toList "क", String.toList "म", String.toList "ल"] 3
      (by decide) (by decide) (by decide) (by decide)).2.1,
   (c8_join_variant_keys [String.toList "क", String.toList "म", String.toList "ल"] 3
      (by decide) (by decide) (by decide) (by decide)).2.2⟩

/-- Claim C9 (confirmed): the row-id decoder settles the packed fixed-width
encodings first — an n times 4 byte blob decodes as n little-endian u32
values, an n times 8 byte blob as n u64 values, then the multiple-of-4 and
multiple-of-8 rules apply — and only when none of these fire does it fall
back to LEB128 varints with the delta heuristic; being a plain function of
the blob and the companion count, the result is deterministic. -/
theorem c9_decode_dispatch (blob : List Nat) (n : Option Int) :
    (blob = [] → decodeRowIds blob n = []) ∧
    (blob ≠ [] → nTruthy n → (blob.length : Int) = nVal n * 4 →
      decodeRowIds blob n = decodeU32 blob ∧
      ((decodeU32 blob).length : Int) = nVal n) ∧
    (blob ≠ [] → nTruthy n → (blob.length : Int) ≠ nVal n * 4 →
      (blob.length : Int) = nVal n * 8 →
      decodeRowIds blob n = decodeU64 blob ∧
      ((decodeU64 blob).length : Int) = nVal n) ∧
    (blob ≠ [] →
      ¬ (nTruthy n ∧ (blob.length : Int) = nVal n * 4) →
      ¬ (nTruthy n ∧ (blob.length : Int) = nVal n * 8) →
      blob.length % 4 = 0 →
      (¬ nTruthy n ∨ ((blob.length / 4 : Nat) : Int) = nVal n) →
      decodeRowIds blob n = decodeU32 blob) ∧
    (blob ≠ [] →
      ¬ (nTruthy n ∧ (blob.length : Int) = nVal n * 4) →
      ¬ (nTruthy n ∧ (blob.length : Int) = nVal n * 8) →
      ¬ (blob.length % 4 = 0 ∧ (¬ nTruthy n ∨ ((blob.length / 4 : Nat) : Int) = nVal n)) →
      blob.length % 8 = 0 →
      (¬ nTruthy n ∨ ((blob.length / 8 : Nat) : Int) = nVal n) →
      decodeRowIds blob n = decodeU64 blob) ∧
    (blob ≠ [] →
      ¬ (nTruthy n ∧ (blob.length : Int) = nVal n * 4) →
      ¬ (nTruthy n ∧ (blob.length : Int) = nVal n * 8) →
      ¬ (blob.length % 4 = 0 ∧ (¬ nTruthy n ∨ ((blob.length / 4 : Nat) : Int) = nVal n)) →
      ¬ (blob.length % 8 = 0 ∧ (¬ nTruthy n ∨ ((blob.length / 8 : Nat) : Int) = nVal n)) →
      decodeRowIds blob n = varintDecode blob n) := by
  refine ⟨?_, ?_, ?_, ?_, ?_, ?_⟩
  · intro h
    simp [decodeRowIds, h]
  · intro hne ht hlen
    unfold decodeRowIds
    rw [if_neg hne, if_pos ⟨ht, hlen⟩]
    refine ⟨rfl, ?_⟩
    rw [decodeU32_length]
    have hpos : 0 < blob.length := List.length_pos_of_ne_nil hne
    omega
  · intro hne ht hne4 hlen
    unfold decodeRowIds
    rw [if_neg hne, if_neg (fun hc => hne4 hc.2), if_pos ⟨ht, hlen⟩]
    refine ⟨rfl, ?_⟩
    rw [decodeU64_length]
    have hpos : 0 < blob.length := List.length_pos_of_ne_nil hne
    omega
  · intro hne h4 h8 hm4 hc4
    unfold decodeRowIds
    rw [if_neg hne, if_neg h4, if_neg h8, if_pos ⟨hm4, hc4⟩]
  · intro hne h4 h8 hb4 hm8 hc8
    unfold decodeRowIds
    rw [if_neg hne, if_neg h4, if_neg h8, if_neg hb4, if_pos ⟨hm8, hc8⟩]
  · intro hne h4 h8 hb4 hb8
    unfold decodeRowIds
    rw [if_neg hne, if_neg h4, if_neg h8, if_neg hb4, if_neg hb8]

theorem c9_decode_dispatch_witness :
    decodeRowIds [1, 0, 0, 0, 2, 0, 0, 0] (some 2) = decodeU32 [1, 0, 0, 0, 2, 0, 0, 0] ∧
    ((decodeU32 [1, 0, 0, 0, 2, 0, 0, 0]).length : Int) = nVal (some 2) :=
  (c9_decode_dispatch [1, 0, 0, 0, 2, 0, 0, 0] (some 2)).2.1 (by decide) (by decide) (by decide)

/-- Claim C10 (confirmed): for a single-token query the exact-scenario
evaluator never returns a descriptor with scenario id 1: whenever the first
candidate token equals the query it is itself a TOKEN target at position 0
that the scenario-0 loop accepts, so the first-token fallback branch never
fires. -/
theorem c10_no_scenario_one (q : List Char) (cToks : List (List Char)) :
    (exactScenarioKey [q] cToks).all (fun d => d.scenarioId != 1) = true := by
  cases hx : exactScenarioKey [q] cToks with
  | none => rfl
  | some d =>
    have h := exactScenarioKey_one_word_ne_one q cToks
    rw [hx] at h
    simp only [Option.map_some', ne_eq, Option.some.injEq] at h
    simpa [Option.all] using h

end VoterSearch
